import Mathlib

/-!
Verification of the lz4jb block-framing codec (the `lz4-java` block format).

The definitions below are a shallow embedding of the Rust sources:
bytes are `Nat` (values `< 256` where it matters), byte streams are
`List Nat`, the `Read`/`Write` wrappers become explicit state passing,
and fallible operations return `Except Err`.  The raw LZ4 primitive and
the checksum are capabilities: the development is parameterized over
them exactly as the code is.
-/

namespace Lz4jb

/-- A byte, modelled as a natural number (`< 256` where it matters). -/
abbrev Byte := Nat

/-- The error taxonomy of the crate (`common.rs`); `ioUnexpectedEof` is the
`std::io` error of kind `UnexpectedEof` propagated verbatim from a failed
`read_exact`, `corruptedStream` covers every `ErrorCorruptedStream`. -/
inductive Err where
  | corruptedStream
  | wrongBlockSize (size min_size max_size : Nat)
  | internal (description : String)
  | lz4Failure
  | ioUnexpectedEof
  deriving Repr, DecidableEq

instance {ε α : Type _} [DecidableEq ε] [DecidableEq α] :
    DecidableEq (Except ε α) := fun
  | .ok a, .ok b => decidable_of_iff (a = b) (by simp)
  | .error e, .error f => decidable_of_iff (e = f) (by simp)
  | .ok _, .error _ => isFalse (by simp)
  | .error _, .ok _ => isFalse (by simp)

/-- `MAGIC_HEADER`: the 8 ASCII bytes `LZ4Block` (`lz4_block_header.rs`). -/
def MAGIC_HEADER : List Byte := [76, 90, 52, 66, 108, 111, 99, 107]

/-- `HEADER_LENGTH = 21`: magic (8) + token (1) + three little-endian `u32`. -/
def HEADER_LENGTH : Nat := 21

def COMPRESSION_LEVEL_BASE : Nat := 10

def MIN_BLOCK_SIZE : Nat := 64

def MAX_BLOCK_SIZE : Nat := 1 <<< (COMPRESSION_LEVEL_BASE + 0x0f)

/-- The table `COMPRESSION_BLOCKS` from `lz4_block_header.rs`:
`1 << (10 + i)` for `i` from 14 down to 0, then `0`. -/
def COMPRESSION_BLOCKS : List Nat :=
  [1 <<< (COMPRESSION_LEVEL_BASE + 14), 1 <<< (COMPRESSION_LEVEL_BASE + 13),
   1 <<< (COMPRESSION_LEVEL_BASE + 12), 1 <<< (COMPRESSION_LEVEL_BASE + 11),
   1 <<< (COMPRESSION_LEVEL_BASE + 10), 1 <<< (COMPRESSION_LEVEL_BASE + 9),
   1 <<< (COMPRESSION_LEVEL_BASE + 8), 1 <<< (COMPRESSION_LEVEL_BASE + 7),
   1 <<< (COMPRESSION_LEVEL_BASE + 6), 1 <<< (COMPRESSION_LEVEL_BASE + 5),
   1 <<< (COMPRESSION_LEVEL_BASE + 4), 1 <<< (COMPRESSION_LEVEL_BASE + 3),
   1 <<< (COMPRESSION_LEVEL_BASE + 2), 1 <<< (COMPRESSION_LEVEL_BASE + 1),
   1 <<< (COMPRESSION_LEVEL_BASE + 0), 0]

def DEFAULT_SEED : Nat := 0x9747b28c

/-- `u32::from_le_bytes` on four bytes. -/
def u32_from_le_bytes (b0 b1 b2 b3 : Byte) : Nat :=
  b0 + 2 ^ 8 * b1 + 2 ^ 16 * b2 + 2 ^ 24 * b3

/-- `u32::to_le_bytes`. -/
def u32_to_le_bytes (n : Nat) : List Byte :=
  [n % 2 ^ 8, n / 2 ^ 8 % 2 ^ 8, n / 2 ^ 16 % 2 ^ 8, n / 2 ^ 24 % 2 ^ 8]

-- CompressionMethod

/-- `CompressionMethod` from `lz4_block_header.rs`: `RAW = 1`, `LZ4 = 2`. -/
inductive CompressionMethod where
  | RAW
  | LZ4
  deriving Repr, DecidableEq

/-- The discriminant of the Rust enum (`RAW as usize = 1`, `LZ4 as usize = 2`). -/
def CompressionMethod.discr : CompressionMethod → Nat
  | .RAW => 1
  | .LZ4 => 2

/-- `CompressionMethod::from_token`: upper nibble of the token byte;
only 1 and 2 are valid, anything else is a corrupted stream. -/
def CompressionMethod.from_token (token : Byte) : Except Err CompressionMethod :=
  let compression_method := (token &&& 0xf0) >>> 4
  if compression_method = CompressionMethod.discr .RAW then .ok .RAW
  else if compression_method = CompressionMethod.discr .LZ4 then .ok .LZ4
  else .error .corruptedStream

/-- `CompressionMethod::get_token`: the discriminant shifted into the upper nibble. -/
def CompressionMethod.get_token (m : CompressionMethod) : Byte :=
  m.discr <<< 4

-- CompressionLevel

/-- `CompressionLevel`: a wrapped nibble (`compression_level : u8`). -/
structure CompressionLevel where
  compression_level : Nat
  deriving Repr, DecidableEq

/-- Helper for `position`: `i` counts the elements already consumed. -/
def position_go (p : Nat → Prop) [DecidablePred p] : List Nat → Nat → Option Nat
  | [], _ => none
  | x :: xs, i => if p x then some i else position_go p xs (i + 1)

/-- `Iterator::position`: index of the first element satisfying `p`. -/
def position (p : Nat → Prop) [DecidablePred p] (l : List Nat) : Option Nat :=
  position_go p l 0

/-- `CompressionLevel::from_block_size`: reject sizes outside
`[MIN_BLOCK_SIZE, MAX_BLOCK_SIZE]`, otherwise scan `COMPRESSION_BLOCKS` for
the first entry `< block_size` and return `0x0f - index`. -/
def CompressionLevel.from_block_size (block_size : Nat) :
    Except Err CompressionLevel :=
  if block_size < MIN_BLOCK_SIZE ∨ block_size > MAX_BLOCK_SIZE then
    .error (.wrongBlockSize block_size MIN_BLOCK_SIZE MAX_BLOCK_SIZE)
  else
    match position (· < block_size) COMPRESSION_BLOCKS with
    | none => .error (.wrongBlockSize block_size MIN_BLOCK_SIZE MAX_BLOCK_SIZE)
    | some index => .ok ⟨0x0f - index⟩

/-- `CompressionLevel::get_max_decompressed_buffer_len`:
`1 << (compression_level + COMPRESSION_LEVEL_BASE)`. -/
def CompressionLevel.get_max_decompressed_buffer_len (l : CompressionLevel) : Nat :=
  1 <<< (l.compression_level + COMPRESSION_LEVEL_BASE)

/-- `CompressionLevel::from_token`: lower nibble. -/
def CompressionLevel.from_token (token : Byte) : CompressionLevel :=
  ⟨token &&& 0x0f⟩

/-- `CompressionLevel::get_token`. -/
def CompressionLevel.get_token (l : CompressionLevel) : Byte :=
  l.compression_level

-- XxHash32 (the checksum capability pinned by the compatibility contract)

def XXH_PRIME_1 : Nat := 2654435761

def XXH_PRIME_2 : Nat := 2246822519

def XXH_PRIME_3 : Nat := 3266489917

def XXH_PRIME_4 : Nat := 668265263

def XXH_PRIME_5 : Nat := 374761393

def U32_MOD : Nat := 2 ^ 32

/-- 32-bit left rotation (on a value `< 2^32`). -/
def rotl32 (k x : Nat) : Nat := ((x <<< k) % U32_MOD) ||| (x >>> (32 - k))

/-- One accumulator step of the XxHash32 main loop. -/
def xxh32_round (acc lane : Nat) : Nat :=
  rotl32 13 ((acc + lane * XXH_PRIME_2) % U32_MOD) * XXH_PRIME_1 % U32_MOD

/-- Consume 16-byte stripes, updating the four accumulators. -/
def xxh32_stripes (v1 v2 v3 v4 : Nat) :
    List Byte → Nat × Nat × Nat × Nat × List Byte
  | b0 :: b1 :: b2 :: b3 :: b4 :: b5 :: b6 :: b7 ::
      b8 :: b9 :: b10 :: b11 :: b12 :: b13 :: b14 :: b15 :: rest =>
    xxh32_stripes (xxh32_round v1 (u32_from_le_bytes b0 b1 b2 b3))
      (xxh32_round v2 (u32_from_le_bytes b4 b5 b6 b7))
      (xxh32_round v3 (u32_from_le_bytes b8 b9 b10 b11))
      (xxh32_round v4 (u32_from_le_bytes b12 b13 b14 b15)) rest
  | rest => (v1, v2, v3, v4, rest)

/-- Consume remaining 4-byte lanes of the XxHash32 finalization. -/
def xxh32_fours (h : Nat) : List Byte → Nat × List Byte
  | b0 :: b1 :: b2 :: b3 :: rest =>
    xxh32_fours
      (rotl32 17 ((h + u32_from_le_bytes b0 b1 b2 b3 * XXH_PRIME_3) % U32_MOD)
        * XXH_PRIME_4 % U32_MOD) rest
  | rest => (h, rest)

/-- Consume the trailing bytes of the XxHash32 finalization. -/
def xxh32_ones (h : Nat) : List Byte → Nat
  | [] => h
  | b :: rest =>
    xxh32_ones (rotl32 11 ((h + b * XXH_PRIME_5) % U32_MOD) * XXH_PRIME_1 % U32_MOD)
      rest

/-- The XxHash32 avalanche. -/
def xxh32_avalanche (h0 : Nat) : Nat :=
  let h1 := h0 ^^^ (h0 >>> 15)
  let h2 := h1 * XXH_PRIME_2 % U32_MOD
  let h3 := h2 ^^^ (h2 >>> 13)
  let h4 := h3 * XXH_PRIME_3 % U32_MOD
  h4 ^^^ (h4 >>> 16)

/-- Modelled from the spec: the seeded 32-bit hash used by
`default_checksum` is XxHash32 (the `twox_hash` crate, outside `src/`),
specified by the public XXH32 algorithm: four-lane main loop on 16-byte
stripes when the input has at least 16 bytes, then 4-byte lanes, then
single bytes, then the avalanche. -/
def xxh32 (seed : Nat) (data : List Byte) : Nat :=
  let len := data.length
  let hr : Nat × List Byte :=
    if 16 ≤ len then
      let s := xxh32_stripes ((seed + XXH_PRIME_1 + XXH_PRIME_2) % U32_MOD)
        ((seed + XXH_PRIME_2) % U32_MOD) (seed % U32_MOD)
        ((seed + U32_MOD - XXH_PRIME_1 % U32_MOD) % U32_MOD) data
      ((rotl32 1 s.1 + rotl32 7 s.2.1 + rotl32 12 s.2.2.1 + rotl32 18 s.2.2.2.1)
        % U32_MOD, s.2.2.2.2)
    else ((seed + XXH_PRIME_5) % U32_MOD, data)
  let h0 := (hr.1 + len) % U32_MOD
  let fr := xxh32_fours h0 hr.2
  xxh32_avalanche (xxh32_ones fr.1 fr.2)

-- Lz4BlockHeader

/-- The parsed block header (`Lz4BlockHeader` in `lz4_block_header.rs`);
the `u32` fields are `Nat`s (`< 2^32` where it matters). -/
structure Lz4BlockHeader where
  compression_method : CompressionMethod
  compression_level : CompressionLevel
  compressed_len : Nat
  decompressed_len : Nat
  checksum : Nat
  deriving Repr, DecidableEq

/-- `Lz4BlockHeader::default_checksum`: seeded XxHash32 with the top nibble
cleared. -/
def Lz4BlockHeader.default_checksum (buf : List Byte) : Nat :=
  xxh32 DEFAULT_SEED buf &&& 0x0fffffff

/-- `Lz4BlockHeader::read` over a byte-list source.  A source shorter than
21 bytes makes `read_exact` fail with `UnexpectedEof`, which the code maps
to `Ok(None)` (end of stream); on a full header every invariant is checked
and a violation is a corrupted stream.  Returns the header (or `none`) and
the rest of the source. -/
def Lz4BlockHeader.read (source : List Byte) :
    Except Err (Option Lz4BlockHeader × List Byte) :=
  match source with
  | m0 :: m1 :: m2 :: m3 :: m4 :: m5 :: m6 :: m7 :: tok :: c0 :: c1 :: c2 :: c3 ::
      d0 :: d1 :: d2 :: d3 :: k0 :: k1 :: k2 :: k3 :: rest =>
    if [m0, m1, m2, m3, m4, m5, m6, m7] ≠ MAGIC_HEADER then .error .corruptedStream
    else
      match CompressionMethod.from_token tok with
      | .error e => .error e
      | .ok compression_method =>
        let compression_level := CompressionLevel.from_token tok
        let compressed_len := u32_from_le_bytes c0 c1 c2 c3
        let decompressed_len := u32_from_le_bytes d0 d1 d2 d3
        let checksum := u32_from_le_bytes k0 k1 k2 k3
        if decompressed_len > compression_level.get_max_decompressed_buffer_len
            ∨ compressed_len > 2 ^ 31 - 1
            ∨ ((compressed_len == 0) ≠ (decompressed_len == 0))
            ∨ (compression_method = .RAW ∧ compressed_len ≠ decompressed_len) then
          .error .corruptedStream
        else if compressed_len = 0 ∧ decompressed_len = 0 ∧ checksum ≠ 0 then
          .error .corruptedStream
        else
          .ok (some ⟨compression_method, compression_level, compressed_len,
            decompressed_len, checksum⟩, rest)
  | _ => .ok (none, source)

/-- `Lz4BlockHeader::write`: the 21 serialized bytes
(magic, token `level | method`, three little-endian `u32`). -/
def Lz4BlockHeader.write (h : Lz4BlockHeader) : List Byte :=
  MAGIC_HEADER
    ++ [h.compression_level.get_token ||| h.compression_method.get_token]
    ++ u32_to_le_bytes h.compressed_len
    ++ u32_to_le_bytes h.decompressed_len
    ++ u32_to_le_bytes h.checksum

example : Lz4BlockHeader.default_checksum [46, 46, 46] = 0x0677e452 := by decide

lemma MIN_BLOCK_SIZE_eq : MIN_BLOCK_SIZE = 64 := rfl

lemma MAX_BLOCK_SIZE_eq : MAX_BLOCK_SIZE = 33554432 := by decide

lemma COMPRESSION_BLOCKS_eq :
    COMPRESSION_BLOCKS = [16777216, 8388608, 4194304, 2097152, 1048576, 524288,
      262144, 131072, 65536, 32768, 16384, 8192, 4096, 2048, 1024, 0] := by
  decide

/-- The scan of `COMPRESSION_BLOCKS` as an explicit decision chain. -/
lemma position_blocks (B : Nat) :
    position (· < B) COMPRESSION_BLOCKS =
      if 16777216 < B then some 0 else if 8388608 < B then some 1 else
      if 4194304 < B then some 2 else if 2097152 < B then some 3 else
      if 1048576 < B then some 4 else if 524288 < B then some 5 else
      if 262144 < B then some 6 else if 131072 < B then some 7 else
      if 65536 < B then some 8 else if 32768 < B then some 9 else
      if 16384 < B then some 10 else if 8192 < B then some 11 else
      if 4096 < B then some 12 else if 2048 < B then some 13 else
      if 1024 < B then some 14 else if 0 < B then some 15 else none := rfl

/-- `from_block_size` returns exactly the level `L` whose interval
`(2^(9+L), 2^(10+L)]` contains `B` (with the bottom interval reaching down
to `MIN_BLOCK_SIZE`). -/
lemma from_block_size_eq (B L : Nat) (h1 : 64 ≤ B) (h2 : B ≤ 2 ^ 25)
    (hL15 : L ≤ 15) (hup : B ≤ 2 ^ (10 + L)) (hlo : L = 0 ∨ 2 ^ (9 + L) < B) :
    CompressionLevel.from_block_size B = .ok ⟨L⟩ := by
  norm_num at h2
  interval_cases L <;>
  · unfold CompressionLevel.from_block_size
    rw [if_neg (by rw [MIN_BLOCK_SIZE_eq, MAX_BLOCK_SIZE_eq]; omega)]
    rw [position_blocks]
    norm_num at hup hlo
    repeat rw [if_neg (by omega)]
    rw [if_pos (by omega)]

/-- Every block size in the legal range maps to the least sufficient level. -/
lemma from_block_size_least (B : Nat) (h1 : MIN_BLOCK_SIZE ≤ B)
    (h2 : B ≤ MAX_BLOCK_SIZE) :
    ∃ L, CompressionLevel.from_block_size B = .ok ⟨L⟩ ∧ L ≤ 15 ∧
      B ≤ 2 ^ (10 + L) ∧ ∀ K, B ≤ 2 ^ (10 + K) → L ≤ K := by
  have h1' : 64 ≤ B := h1
  have h2' : B ≤ 2 ^ 25 := by
    unfold MAX_BLOCK_SIZE COMPRESSION_LEVEL_BASE at h2
    simpa [Nat.shiftLeft_eq] using h2
  have hcase : ∃ k, k ≤ 15 ∧ B ≤ 2 ^ (10 + k) ∧ (k = 0 ∨ 2 ^ (9 + k) < B) := by
    rcases le_or_lt B 1024 with h | h
    · exact ⟨0, by norm_num, by norm_num; omega, Or.inl rfl⟩
    rcases le_or_lt B 2048 with h' | h'
    · exact ⟨1, by norm_num, by norm_num; omega, Or.inr (by norm_num; omega)⟩
    rcases le_or_lt B 4096 with h | h
    · exact ⟨2, by norm_num, by norm_num; omega, Or.inr (by norm_num; omega)⟩
    rcases le_or_lt B 8192 with h' | h'
    · exact ⟨3, by norm_num, by norm_num; omega, Or.inr (by norm_num; omega)⟩
    rcases le_or_lt B 16384 with h | h
    · exact ⟨4, by norm_num, by norm_num; omega, Or.inr (by norm_num; omega)⟩
    rcases le_or_lt B 32768 with h' | h'
    · exact ⟨5, by norm_num, by norm_num; omega, Or.inr (by norm_num; omega)⟩
    rcases le_or_lt B 65536 with h | h
    · exact ⟨6, by norm_num, by norm_num; omega, Or.inr (by norm_num; omega)⟩
    rcases le_or_lt B 131072 with h' | h'
    · exact ⟨7, by norm_num, by norm_num; omega, Or.inr (by norm_num; omega)⟩
    rcases le_or_lt B 262144 with h | h
    · exact ⟨8, by norm_num, by norm_num; omega, Or.inr (by norm_num; omega)⟩
    rcases le_or_lt B 524288 with h' | h'
    · exact ⟨9, by norm_num, by norm_num; omega, Or.inr (by norm_num; omega)⟩
    rcases le_or_lt B 1048576 with h | h
    · exact ⟨10, by norm_num, by norm_num; omega, Or.inr (by norm_num; omega)⟩
    rcases le_or_lt B 2097152 with h' | h'
    · exact ⟨11, by norm_num, by norm_num; omega, Or.inr (by norm_num; omega)⟩
    rcases le_or_lt B 4194304 with h | h
    · exact ⟨12, by norm_num, by norm_num; omega, Or.inr (by norm_num; omega)⟩
    rcases le_or_lt B 8388608 with h' | h'
    · exact ⟨13, by norm_num, by norm_num; omega, Or.inr (by norm_num; omega)⟩
    rcases le_or_lt B 16777216 with h | h
    · exact ⟨14, by norm_num, by norm_num; omega, Or.inr (by norm_num; omega)⟩
    · exact ⟨15, by norm_num, by norm_num; omega, Or.inr (by norm_num; omega)⟩
  obtain ⟨k, hk15, hkB, hkmin⟩ := hcase
  refine ⟨k, from_block_size_eq B k h1' h2' hk15 hkB hkmin, hk15, hkB, ?_⟩
  intro K hK
  rcases hkmin with rfl | hlt
  · omega
  · by_contra hc
    push_neg at hc
    have hle : (2 : Nat) ^ (10 + K) ≤ 2 ^ (9 + k) :=
      Nat.pow_le_pow_right (by norm_num) (by omega)
    omega

/-- C3: for every block size `B` with `64 ≤ B ≤ 2^25`,
`CompressionLevel::from_block_size(B)` succeeds and returns the smallest
level `L` in `0..=15` such that `2^(10+L) ≥ B` (hence
`level(2^(10+i)) = i` for `i ∈ 0..=15` and `level(2^(10+i)+1) = i+1` for
`i ∈ 0..=14`), and for every `B < 64` or `B > 2^25` it returns a
`WrongBlockSize` error. -/
theorem C3_from_block_size_level :
    (∀ B, 64 ≤ B → B ≤ 2 ^ 25 →
      ∃ L, CompressionLevel.from_block_size B = .ok ⟨L⟩ ∧ L ≤ 15 ∧
        B ≤ 2 ^ (10 + L) ∧ ∀ K, B ≤ 2 ^ (10 + K) → L ≤ K) ∧
    (∀ i, i ≤ 15 → CompressionLevel.from_block_size (2 ^ (10 + i)) = .ok ⟨i⟩) ∧
    (∀ i, i ≤ 14 →
      CompressionLevel.from_block_size (2 ^ (10 + i) + 1) = .ok ⟨i + 1⟩) ∧
    (∀ B, B < 64 ∨ 2 ^ 25 < B →
      CompressionLevel.from_block_size B =
        .error (.wrongBlockSize B MIN_BLOCK_SIZE MAX_BLOCK_SIZE)) := by
  refine ⟨?_, ?_, ?_, ?_⟩
  · intro B h1 h2
    exact from_block_size_least B (by rw [MIN_BLOCK_SIZE_eq]; omega)
      (by rw [MAX_BLOCK_SIZE_eq]; omega)
  · intro i hi
    interval_cases i <;> decide
  · intro i hi
    interval_cases i <;> decide
  · intro B hB
    unfold CompressionLevel.from_block_size
    rw [if_pos (by rw [MIN_BLOCK_SIZE_eq, MAX_BLOCK_SIZE_eq]; omega)]

/-- Witness for `C3_from_block_size_level` at concrete inputs. -/
theorem C3_from_block_size_level_witness :
    (∃ L, CompressionLevel.from_block_size 1500 = .ok ⟨L⟩ ∧ L ≤ 15 ∧
      1500 ≤ 2 ^ (10 + L) ∧ ∀ K, 1500 ≤ 2 ^ (10 + K) → L ≤ K) ∧
    CompressionLevel.from_block_size (2 ^ (10 + 3)) = .ok ⟨3⟩ ∧
    CompressionLevel.from_block_size (2 ^ (10 + 3) + 1) = .ok ⟨4⟩ ∧
    CompressionLevel.from_block_size 63 =
      .error (.wrongBlockSize 63 MIN_BLOCK_SIZE MAX_BLOCK_SIZE) :=
  ⟨C3_from_block_size_level.1 1500 (by norm_num) (by norm_num),
   C3_from_block_size_level.2.1 3 (by norm_num),
   C3_from_block_size_level.2.2.1 3 (by norm_num),
   C3_from_block_size_level.2.2.2 63 (Or.inl (by norm_num))⟩

set_option maxRecDepth 10000 in
/-- C4: `Lz4BlockHeader::default_checksum(buf)` is the XxHash32 hash of
`buf` with seed `0x9747b28c`, bitwise-ANDed with `0x0FFFFFFF`; on the
3-byte input `0x2E 0x2E 0x2E` it returns `0x0677E452`, the little-endian
checksum field of the 24-byte reference stream. The `xxh32` model is
validated against the public XXH32 reference vectors on all three code
paths: the empty input with seed 0 (short path, `0x02CC5D05`), the
16-byte input `00..0F` with the repository's seed (one full stripe,
`0x91507297`), and the 39-byte ASCII input
`"Nobody inspects the spammish repetition"` with seed 0 (two stripes
plus a 4-byte lane and three tail bytes, `0xE2293B2F`). -/
theorem C4_default_checksum :
    (∀ buf, Lz4BlockHeader.default_checksum buf =
      xxh32 0x9747b28c buf &&& 0x0fffffff) ∧
    DEFAULT_SEED = 0x9747b28c ∧
    Lz4BlockHeader.default_checksum [0x2e, 0x2e, 0x2e] = 0x0677e452 ∧
    xxh32 0 [] = 0x02cc5d05 ∧
    xxh32 0x9747b28c [0, 1, 2, 3, 4, 5, 6, 7, 8, 9, 10, 11, 12, 13, 14, 15]
      = 0x91507297 ∧
    xxh32 0 [78, 111, 98, 111, 100, 121, 32, 105, 110, 115, 112, 101, 99,
      116, 115, 32, 116, 104, 101, 32, 115, 112, 97, 109, 109, 105, 115,
      104, 32, 114, 101, 112, 101, 116, 105, 116, 105, 111, 110]
      = 0xe2293b2f :=
  ⟨fun _ => rfl, rfl, by decide, by decide, by decide, by decide⟩

-- C2: the header read checks exactly the seven wire invariants

set_option maxRecDepth 4000 in
/-- For a byte, masking with `0xf0` and shifting is the high nibble and
masking with `0x0f` is the low nibble. -/
lemma token_nibbles : ∀ t : Nat, t < 256 →
    (t &&& 0xf0) >>> 4 = t / 16 ∧ t &&& 0x0f = t % 16 := by decide

/-- The maximum decompressed length legitimized by the token's low nibble. -/
lemma max_decomp_token (t : Nat) (h : t < 256) :
    (CompressionLevel.from_token t).get_max_decompressed_buffer_len =
      2 ^ (10 + t % 16) := by
  unfold CompressionLevel.from_token CompressionLevel.get_max_decompressed_buffer_len
    COMPRESSION_LEVEL_BASE
  rw [(token_nibbles t h).2, Nat.shiftLeft_eq, one_mul, Nat.add_comm]

lemma beq_zero_ne_iff (a b : Nat) :
    (((a == 0) : Bool) ≠ ((b == 0) : Bool)) ↔ ¬(a = 0 ↔ b = 0) := by
  by_cases ha : a = 0 <;> by_cases hb : b = 0 <;> simp [ha, hb]

/-- The seven wire invariants of §3 stated from the spec's words, on the
raw bytes of a full 21-byte header: magic, method nibble in `{1, 2}`,
decompressed length bounded by the level, compressed length bounded by
`i32::MAX`, zero lengths coincide, stored blocks have equal lengths, and
an empty block carries a zero checksum. -/
def specWireInvariants
    (m0 m1 m2 m3 m4 m5 m6 m7 tok c0 c1 c2 c3 d0 d1 d2 d3 k0 k1 k2 k3 : Byte) :
    Prop :=
  [m0, m1, m2, m3, m4, m5, m6, m7] = MAGIC_HEADER ∧
  (tok / 16 = 1 ∨ tok / 16 = 2) ∧
  u32_from_le_bytes d0 d1 d2 d3 ≤ 2 ^ (10 + tok % 16) ∧
  u32_from_le_bytes c0 c1 c2 c3 ≤ 2 ^ 31 - 1 ∧
  (u32_from_le_bytes c0 c1 c2 c3 = 0 ↔ u32_from_le_bytes d0 d1 d2 d3 = 0) ∧
  (tok / 16 = 1 →
    u32_from_le_bytes c0 c1 c2 c3 = u32_from_le_bytes d0 d1 d2 d3) ∧
  (u32_from_le_bytes c0 c1 c2 c3 = 0 ∧ u32_from_le_bytes d0 d1 d2 d3 = 0 →
    u32_from_le_bytes k0 k1 k2 k3 = 0)

instance specWireInvariants.instDecidable
    (m0 m1 m2 m3 m4 m5 m6 m7 tok c0 c1 c2 c3 d0 d1 d2 d3 k0 k1 k2 k3 : Byte) :
    Decidable (specWireInvariants m0 m1 m2 m3 m4 m5 m6 m7 tok c0 c1 c2 c3 d0
      d1 d2 d3 k0 k1 k2 k3) := by
  unfold specWireInvariants
  infer_instance

/-- `CompressionMethod::from_token` as a decision on the high nibble. -/
lemma from_token_cases (t : Nat) (h : t < 256) :
    CompressionMethod.from_token t =
      (if t / 16 = 1 then Except.ok .RAW else if t / 16 = 2 then Except.ok .LZ4
        else Except.error Err.corruptedStream) := by
  unfold CompressionMethod.from_token CompressionMethod.discr
  rw [(token_nibbles t h).1]

/-- C2: whenever `Lz4BlockHeader::read` obtains a full 21-byte header, it
returns a header exactly when all seven wire invariants hold, and returns a
`CorruptedStream` error when any of them fails. -/
theorem C2_header_read_checks_invariants
    (m0 m1 m2 m3 m4 m5 m6 m7 tok c0 c1 c2 c3 d0 d1 d2 d3 k0 k1 k2 k3 : Byte)
    (rest : List Byte) (htok : tok < 256) :
    ((∃ h, Lz4BlockHeader.read
        (m0 :: m1 :: m2 :: m3 :: m4 :: m5 :: m6 :: m7 :: tok :: c0 :: c1 :: c2 ::
          c3 :: d0 :: d1 :: d2 :: d3 :: k0 :: k1 :: k2 :: k3 :: rest) =
        .ok (some h, rest)) ↔
      specWireInvariants m0 m1 m2 m3 m4 m5 m6 m7 tok c0 c1 c2 c3 d0 d1 d2 d3
        k0 k1 k2 k3) ∧
    (¬ specWireInvariants m0 m1 m2 m3 m4 m5 m6 m7 tok c0 c1 c2 c3 d0 d1 d2 d3
        k0 k1 k2 k3 →
      Lz4BlockHeader.read
        (m0 :: m1 :: m2 :: m3 :: m4 :: m5 :: m6 :: m7 :: tok :: c0 :: c1 :: c2 ::
          c3 :: d0 :: d1 :: d2 :: d3 :: k0 :: k1 :: k2 :: k3 :: rest) =
        .error .corruptedStream) := by
  simp only [Lz4BlockHeader.read, specWireInvariants, from_token_cases tok htok,
    max_decomp_token tok htok]
  by_cases hmag : [m0, m1, m2, m3, m4, m5, m6, m7] = MAGIC_HEADER
  · rw [if_neg (not_not_intro hmag)]
    by_cases h1 : tok / 16 = 1
    · rw [if_pos h1]
      simp only [h1]
      split_ifs with hbig hzero <;>
        constructor <;>
        simp_all [beq_zero_ne_iff] <;>
        omega
    · rw [if_neg h1]
      by_cases h2 : tok / 16 = 2
      · rw [if_pos h2]
        simp only [h2]
        split_ifs with hbig hzero <;>
          constructor <;>
          simp_all [beq_zero_ne_iff] <;>
          omega
      · rw [if_neg h2]
        simp_all
  · rw [if_pos hmag]
    simp_all

/-- Witness for `C2_header_read_checks_invariants`: the valid empty-block
header parses, and a corrupted magic is rejected. -/
theorem C2_header_read_checks_invariants_witness :
    (∃ h, Lz4BlockHeader.read
        [76, 90, 52, 66, 108, 111, 99, 107, 0x10, 0, 0, 0, 0, 0, 0, 0, 0,
          0, 0, 0, 0] = .ok (some h, [])) ∧
    Lz4BlockHeader.read
        [77, 90, 52, 66, 108, 111, 99, 107, 0x10, 0, 0, 0, 0, 0, 0, 0, 0,
          0, 0, 0, 0] = .error .corruptedStream :=
  ⟨((C2_header_read_checks_invariants 76 90 52 66 108 111 99 107 0x10 0 0 0 0
      0 0 0 0 0 0 0 0 [] (by decide)).1).mpr (by decide),
   (C2_header_read_checks_invariants 77 90 52 66 108 111 99 107 0x10 0 0 0 0
      0 0 0 0 0 0 0 0 [] (by decide)).2 (by decide)⟩

-- C9: header bijection

/-- A well-formed header: level is a nibble, the §3 invariants hold, and
the `u32` fields fit in 32 bits. -/
def Lz4BlockHeader.wellFormed (h : Lz4BlockHeader) : Prop :=
  h.compression_level.compression_level ≤ 15 ∧
  h.decompressed_len ≤ 2 ^ (10 + h.compression_level.compression_level) ∧
  h.compressed_len ≤ 2 ^ 31 - 1 ∧
  (h.compressed_len = 0 ↔ h.decompressed_len = 0) ∧
  (h.compression_method = .RAW → h.compressed_len = h.decompressed_len) ∧
  (h.compressed_len = 0 ∧ h.decompressed_len = 0 → h.checksum = 0) ∧
  h.checksum < 2 ^ 32

set_option maxRecDepth 4000 in
/-- Assembling a token from a nibble `l` and a method in the high nibble. -/
lemma token_assemble : ∀ l : Nat, l < 16 →
    (l ||| 16) < 256 ∧ (l ||| 16) / 16 = 1 ∧ (l ||| 16) % 16 = l ∧
    (l ||| 32) < 256 ∧ (l ||| 32) / 16 = 2 ∧ (l ||| 32) % 16 = l := by decide

lemma u32_le_roundtrip (n : Nat) (h : n < 2 ^ 32) :
    u32_from_le_bytes (n % 2 ^ 8) (n / 2 ^ 8 % 2 ^ 8) (n / 2 ^ 16 % 2 ^ 8)
      (n / 2 ^ 24 % 2 ^ 8) = n := by
  unfold u32_from_le_bytes
  omega

lemma from_token_level (t : Nat) (h : t < 256) :
    CompressionLevel.from_token t = ⟨t % 16⟩ := by
  unfold CompressionLevel.from_token
  rw [(token_nibbles t h).2]

/-- `CompressionMethod::from_token` only ever fails with `CorruptedStream`. -/
lemma from_token_error_corrupted (t : Nat) (e : Err)
    (h : CompressionMethod.from_token t = .error e) : e = .corruptedStream := by
  simp only [CompressionMethod.from_token] at h
  split_ifs at h <;> simp_all

/-- Parsing the serialization of a well-formed header returns it intact. -/
lemma read_write_roundtrip :
    ∀ (H : Lz4BlockHeader), H.wellFormed → ∀ rest,
      Lz4BlockHeader.read (H.write ++ rest) = .ok (some H, rest) := by
  intro H hwf rest
  obtain ⟨m, ⟨lvl⟩, clen, dlen, ksum⟩ := H
  unfold Lz4BlockHeader.wellFormed at hwf
  dsimp only at hwf
  obtain ⟨hl15, hd, hc, hzero, hraw, hzk, hk32⟩ := hwf
  have hlvl : lvl < 16 := by omega
  have htok := token_assemble lvl hlvl
  have hd32 : dlen < 2 ^ 32 := by
    have : (2 : Nat) ^ (10 + lvl) ≤ 2 ^ 25 :=
      Nat.pow_le_pow_right (by norm_num) (by omega)
    omega
  have hc32 : clen < 2 ^ 32 := by omega
  cases m
  · simp only [Lz4BlockHeader.write, CompressionLevel.get_token,
      CompressionMethod.get_token, CompressionMethod.discr, MAGIC_HEADER,
      u32_to_le_bytes, List.cons_append, List.nil_append]
    rw [show (1 : Nat) <<< 4 = 16 from rfl]
    simp only [Lz4BlockHeader.read]
    rw [if_neg (by simp [MAGIC_HEADER])]
    rw [from_token_cases _ htok.1, if_pos htok.2.1]
    rw [from_token_level _ htok.1, htok.2.2.1]
    rw [u32_le_roundtrip clen hc32, u32_le_roundtrip dlen hd32,
      u32_le_roundtrip ksum hk32]
    dsimp only
    rw [if_neg (by
      simp only [CompressionLevel.get_max_decompressed_buffer_len,
        COMPRESSION_LEVEL_BASE, Nat.shiftLeft_eq, one_mul, beq_zero_ne_iff]
      rw [Nat.add_comm lvl 10]
      simp only [not_or]
      refine ⟨by omega, by omega, by tauto, by simp [hraw rfl]⟩)]
    rw [if_neg (by omega)]
  · simp only [Lz4BlockHeader.write, CompressionLevel.get_token,
      CompressionMethod.get_token, CompressionMethod.discr, MAGIC_HEADER,
      u32_to_le_bytes, List.cons_append, List.nil_append]
    rw [show (2 : Nat) <<< 4 = 32 from rfl]
    simp only [Lz4BlockHeader.read]
    rw [if_neg (by simp [MAGIC_HEADER])]
    rw [from_token_cases _ htok.2.2.2.1]
    rw [if_neg (by rw [htok.2.2.2.2.1]; omega), if_pos htok.2.2.2.2.1]
    rw [from_token_level _ htok.2.2.2.1, htok.2.2.2.2.2]
    rw [u32_le_roundtrip clen hc32, u32_le_roundtrip dlen hd32,
      u32_le_roundtrip ksum hk32]
    dsimp only
    rw [if_neg (by
      simp only [CompressionLevel.get_max_decompressed_buffer_len,
        COMPRESSION_LEVEL_BASE, Nat.shiftLeft_eq, one_mul, beq_zero_ne_iff]
      rw [Nat.add_comm lvl 10]
      simp only [not_or]
      refine ⟨by omega, by omega, by tauto, by simp⟩)]
    rw [if_neg (by omega)]
/-- On a full 21-byte buffer, `read` either returns a header and exactly
the remaining bytes, or fails with `CorruptedStream`. -/
lemma read_full_alternative :
    ∀ (b0 b1 b2 b3 b4 b5 b6 b7 b8 b9 b10 b11 b12 b13 b14 b15 b16 b17 b18 b19
        b20 : Byte) (rest : List Byte),
      (∃ h, Lz4BlockHeader.read
          (b0 :: b1 :: b2 :: b3 :: b4 :: b5 :: b6 :: b7 :: b8 :: b9 :: b10 ::
            b11 :: b12 :: b13 :: b14 :: b15 :: b16 :: b17 :: b18 :: b19 :: b20 ::
            rest) = .ok (some h, rest)) ∨
        Lz4BlockHeader.read
          (b0 :: b1 :: b2 :: b3 :: b4 :: b5 :: b6 :: b7 :: b8 :: b9 :: b10 ::
            b11 :: b12 :: b13 :: b14 :: b15 :: b16 :: b17 :: b18 :: b19 :: b20 ::
            rest) = .error .corruptedStream := by
  intro b0 b1 b2 b3 b4 b5 b6 b7 b8 b9 b10 b11 b12 b13 b14 b15 b16 b17 b18
    b19 b20 rest
  simp only [Lz4BlockHeader.read]
  by_cases hmag : [b0, b1, b2, b3, b4, b5, b6, b7] = MAGIC_HEADER
  · rw [if_neg (not_not_intro hmag)]
    rcases hft : CompressionMethod.from_token b8 with e | m
    · have he : e = .corruptedStream := from_token_error_corrupted b8 e hft
      subst he
      right
      rfl
    · dsimp only
      split_ifs <;> first | (right; rfl) | exact Or.inl ⟨_, rfl⟩
  · rw [if_pos hmag]
    right
    rfl

/-- C9: for every well-formed header `H`, parsing the 21 bytes produced by
`Lz4BlockHeader::write(H)` returns `H` field by field (with nothing else
consumed); and for every 21-byte input, `Lz4BlockHeader::read` either
returns a header or a `CorruptedStream` error — never partial state. -/
theorem C9_header_bijection :
    (∀ (H : Lz4BlockHeader), H.wellFormed → ∀ rest,
      Lz4BlockHeader.read (H.write ++ rest) = .ok (some H, rest)) ∧
    (∀ (b0 b1 b2 b3 b4 b5 b6 b7 b8 b9 b10 b11 b12 b13 b14 b15 b16 b17 b18 b19
        b20 : Byte) (rest : List Byte),
      (∃ h, Lz4BlockHeader.read
          (b0 :: b1 :: b2 :: b3 :: b4 :: b5 :: b6 :: b7 :: b8 :: b9 :: b10 ::
            b11 :: b12 :: b13 :: b14 :: b15 :: b16 :: b17 :: b18 :: b19 :: b20 ::
            rest) = .ok (some h, rest)) ∨
        Lz4BlockHeader.read
          (b0 :: b1 :: b2 :: b3 :: b4 :: b5 :: b6 :: b7 :: b8 :: b9 :: b10 ::
            b11 :: b12 :: b13 :: b14 :: b15 :: b16 :: b17 :: b18 :: b19 :: b20 ::
            rest) = .error .corruptedStream) :=
  ⟨read_write_roundtrip, read_full_alternative⟩

/-- Witness for `C9_header_bijection`: round-trip of the reference data
header, and the ok-or-corrupted alternative at a concrete 21-byte buffer. -/
theorem C9_header_bijection_witness :
    Lz4BlockHeader.read
        ((Lz4BlockHeader.mk .RAW ⟨0⟩ 3 3 0x0677e452).write ++ [46, 46, 46]) =
      .ok (some (Lz4BlockHeader.mk .RAW ⟨0⟩ 3 3 0x0677e452), [46, 46, 46]) ∧
    ((∃ h, Lz4BlockHeader.read
        [76, 90, 52, 66, 108, 111, 99, 107, 0x30, 0, 0, 0, 0, 0, 0, 0, 0,
          0, 0, 0, 0] = .ok (some h, [])) ∨
      Lz4BlockHeader.read
        [76, 90, 52, 66, 108, 111, 99, 107, 0x30, 0, 0, 0, 0, 0, 0, 0, 0,
          0, 0, 0, 0] = .error .corruptedStream) :=
  ⟨C9_header_bijection.1 (Lz4BlockHeader.mk .RAW ⟨0⟩ 3 3 0x0677e452)
      (by unfold Lz4BlockHeader.wellFormed; norm_num) [46, 46, 46],
   C9_header_bijection.2 76 90 52 66 108 111 99 107 0x30 0 0 0 0 0 0 0 0 0 0
      0 0 []⟩

-- Lz4BlockOutput (the compressing adapter, over a Vec<u8> sink)

/-- The state of `Lz4BlockOutput` over a `Vec<u8>` sink: the sink contents,
the negotiated level, the accumulation cursor and the two owned buffers. -/
structure Lz4BlockOutput where
  writer : List Byte
  compression_level : CompressionLevel
  write_ptr : Nat
  decompressed_buf : List Byte
  compressed_buf : List Byte
  deriving Repr, DecidableEq

/-- `CompressionLevel::get_max_compressed_buffer_len`, parameterized by the
LZ4 capability's worst-case bound (`lz4_get_maximum_output_size`). -/
def CompressionLevel.get_max_compressed_buffer_len (bound : Nat → Nat)
    (l : CompressionLevel) : Nat :=
  bound l.get_max_decompressed_buffer_len

/-- `Lz4BlockOutput::with_checksum`: validate the block size, then allocate
the two buffers (the sink starts empty). -/
def Lz4BlockOutput.with_checksum (bound : Nat → Nat) (block_size : Nat) :
    Except Err Lz4BlockOutput :=
  match CompressionLevel.from_block_size block_size with
  | .error e => .error e
  | .ok compression_level =>
    .ok { writer := []
          compression_level := compression_level
          write_ptr := 0
          compressed_buf := List.replicate
            (compression_level.get_max_compressed_buffer_len bound) 0
          decompressed_buf := List.replicate block_size 0 }

/-- `Lz4BlockOutput::copy_to_buf`: copy `buf` into the accumulation buffer
at `write_ptr`, or fail with the `Internal` error when it does not fit. -/
def Lz4BlockOutput.copy_to_buf (st : Lz4BlockOutput) (buf : List Byte) :
    Except Err (Lz4BlockOutput × Nat) :=
  let buf_into_len := st.decompressed_buf.length - st.write_ptr
  if buf.length > buf_into_len then
    .error (.internal "Attempt to write a bigger buffer than the available one")
  else
    .ok ({ st with
      decompressed_buf := st.decompressed_buf.take st.write_ptr ++ buf ++
        st.decompressed_buf.drop (st.write_ptr + buf.length)
      write_ptr := st.write_ptr + buf.length }, buf.length)

/-- `Lz4BlockOutput::remaining_buf_len`. -/
def Lz4BlockOutput.remaining_buf_len (st : Lz4BlockOutput) : Except Err Nat :=
  if st.write_ptr ≤ st.decompressed_buf.length then
    .ok (st.decompressed_buf.length - st.write_ptr)
  else
    .error (.internal "Could not determine the buffer size")

/-- `Lz4BlockOutput::flush`: when the accumulation buffer is non-empty,
compress it, pick the cheaper method, emit header plus payload, and reset
the cursor; `compress` is the LZ4 capability writing into `compressed_buf`
(whose overflow is the capability's error), `cs` the checksum. -/
def Lz4BlockOutput.flush (compress : List Byte → List Byte)
    (cs : List Byte → Nat) (st : Lz4BlockOutput) : Except Err Lz4BlockOutput :=
  if 0 < st.write_ptr then
    let decompressed_buf := st.decompressed_buf.take st.write_ptr
    let compressed_all := compress decompressed_buf
    if st.compressed_buf.length < compressed_all.length then
      .error .lz4Failure
    else
      let p := if compressed_all.length < decompressed_buf.length then
          (CompressionMethod.LZ4, compressed_all)
        else (CompressionMethod.RAW, decompressed_buf)
      let header : Lz4BlockHeader :=
        { compression_method := p.1
          compression_level := st.compression_level
          compressed_len := p.2.length
          decompressed_len := decompressed_buf.length
          checksum := cs decompressed_buf }
      .ok { st with writer := st.writer ++ header.write ++ p.2, write_ptr := 0 }
  else
    .ok { st with write_ptr := 0 }

/-- `Lz4BlockOutput::write`: flush when the buffer is full, then copy at
most the remaining capacity. -/
def Lz4BlockOutput.write (compress : List Byte → List Byte)
    (cs : List Byte → Nat) (st : Lz4BlockOutput) (buf : List Byte) :
    Except Err (Lz4BlockOutput × Nat) :=
  match (if st.write_ptr = st.decompressed_buf.length
      then st.flush compress cs else .ok st) with
  | .error e => .error e
  | .ok st' =>
    match st'.remaining_buf_len with
    | .error e => .error e
    | .ok remaining =>
      st'.copy_to_buf (buf.take (min buf.length remaining))

/-- `Write::write_all` over `Lz4BlockOutput`: iterate `write` until the
input is consumed (`fuel` bounds the iteration count; any fuel at least
the input length suffices). -/
def Lz4BlockOutput.write_all (compress : List Byte → List Byte)
    (cs : List Byte → Nat) (fuel : Nat) (st : Lz4BlockOutput)
    (buf : List Byte) : Except Err Lz4BlockOutput :=
  match fuel with
  | 0 => .error (.internal "out of fuel")
  | fuel + 1 =>
    if buf.isEmpty then .ok st
    else
      match Lz4BlockOutput.write compress cs st buf with
      | .error e => .error e
      | .ok (st', n) =>
        if n = 0 then .error (.internal "write zero")
        else Lz4BlockOutput.write_all compress cs fuel st' (buf.drop n)

/-- `<Lz4BlockOutput as Drop>::drop`: best-effort flush (`let _ = self.flush()`);
the observable result is the final sink contents. -/
def Lz4BlockOutput.dropOut (compress : List Byte → List Byte)
    (cs : List Byte → Nat) (st : Lz4BlockOutput) : List Byte :=
  match st.flush compress cs with
  | .ok st' => st'.writer
  | .error _ => st.writer

/-- The 24-byte reference stream (`VALID_DATA` in the repository's tests):
a stored block holding the three bytes `...`. -/
def VALID_DATA : List Byte :=
  [76, 90, 52, 66, 108, 111, 99, 107, 0x10, 3, 0, 0, 0, 3, 0, 0, 0,
   0x52, 0xe4, 0x77, 0x06, 46, 46, 46]

/-- The 21-byte empty terminator block literal. -/
def EMPTY_TERMINATOR : List Byte :=
  [76, 90, 52, 66, 108, 111, 99, 107, 0x10, 0, 0, 0, 0, 0, 0, 0, 0,
   0, 0, 0, 0]

/-- The writer pipeline of the repository's `write_basic` test: construct
with block size 128 and default checksum, write `...`, drop.  The LZ4
capability is instantiated with the identity (3 bytes never compress below
3 bytes, so the method choice is stored either way) and the `lz4_flex`
bound `16 + n + n / 255`. -/
def c8_run : List Byte :=
  match Lz4BlockOutput.with_checksum (fun n => 16 + n + n / 255) 128 with
  | .error _ => []
  | .ok st0 =>
    match Lz4BlockOutput.write_all (fun d => d) Lz4BlockHeader.default_checksum
        4 st0 [46, 46, 46] with
    | .error _ => []
    | .ok st1 =>
      Lz4BlockOutput.dropOut (fun d => d) Lz4BlockHeader.default_checksum st1

set_option maxRecDepth 10000 in
example : c8_run = VALID_DATA := by decide

-- Shared characterizations of flush / copy_to_buf

/-- The bytes a flush of a non-empty accumulation `d` emits: header plus the
cheaper of the compressed and the stored payload. -/
def encodeBlock (compress : List Byte → List Byte) (cs : List Byte → Nat)
    (level : CompressionLevel) (d : List Byte) : List Byte :=
  let c := compress d
  if c.length < d.length then
    (Lz4BlockHeader.mk .LZ4 level c.length d.length (cs d)).write ++ c
  else
    (Lz4BlockHeader.mk .RAW level d.length d.length (cs d)).write ++ d

lemma flush_emits (compress : List Byte → List Byte) (cs : List Byte → Nat)
    (st : Lz4BlockOutput) (h0 : 0 < st.write_ptr)
    (hbuf : (compress (st.decompressed_buf.take st.write_ptr)).length ≤
      st.compressed_buf.length) :
    st.flush compress cs = .ok { st with
      writer := st.writer ++
        encodeBlock compress cs st.compression_level
          (st.decompressed_buf.take st.write_ptr)
      write_ptr := 0 } := by
  unfold Lz4BlockOutput.flush encodeBlock
  rw [if_pos h0, if_neg (by omega)]
  by_cases hc : (compress (st.decompressed_buf.take st.write_ptr)).length <
      (st.decompressed_buf.take st.write_ptr).length
  · simp only [if_pos hc, List.append_assoc]
  · simp only [if_neg hc, List.append_assoc]

lemma flush_skips (compress : List Byte → List Byte) (cs : List Byte → Nat)
    (st : Lz4BlockOutput) (h0 : st.write_ptr = 0) :
    st.flush compress cs = .ok { st with write_ptr := 0 } := by
  unfold Lz4BlockOutput.flush
  rw [if_neg (by omega)]

lemma flush_error_lz4 (compress : List Byte → List Byte) (cs : List Byte → Nat)
    (st : Lz4BlockOutput) (e : Err) (h : st.flush compress cs = .error e) :
    e = .lz4Failure := by
  simp only [Lz4BlockOutput.flush] at h
  split_ifs at h <;> simp_all

lemma flush_ok_fields (compress : List Byte → List Byte) (cs : List Byte → Nat)
    (st st' : Lz4BlockOutput) (h : st.flush compress cs = .ok st') :
    st'.write_ptr = 0 ∧ st'.decompressed_buf = st.decompressed_buf ∧
      st'.compressed_buf = st.compressed_buf ∧
      st'.compression_level = st.compression_level := by
  simp only [Lz4BlockOutput.flush] at h
  split_ifs at h <;> (injection h with h; subst h; exact ⟨rfl, rfl, rfl, rfl⟩)

lemma copy_to_buf_ok (st : Lz4BlockOutput) (buf : List Byte)
    (h : buf.length ≤ st.decompressed_buf.length - st.write_ptr) :
    st.copy_to_buf buf = .ok ({ st with
      decompressed_buf := st.decompressed_buf.take st.write_ptr ++ buf ++
        st.decompressed_buf.drop (st.write_ptr + buf.length)
      write_ptr := st.write_ptr + buf.length }, buf.length) := by
  unfold Lz4BlockOutput.copy_to_buf
  rw [if_neg (by omega)]

-- C5: method selection

/-- C5: when `Lz4BlockOutput` emits a block for a non-empty accumulation of
length `D = write_ptr`, it uses method lz4 iff the LZ4 primitive output
length `C` satisfies `C < D`, in which case the payload is the `C`
compressed bytes and `compressed_len = C`; otherwise it uses stored with
the `D` accumulated bytes verbatim and `compressed_len = decompressed_len
= D`. -/
theorem C5_method_selection (compress : List Byte → List Byte)
    (cs : List Byte → Nat) (st : Lz4BlockOutput) (h0 : 0 < st.write_ptr)
    (hinv : st.write_ptr ≤ st.decompressed_buf.length)
    (hbuf : (compress (st.decompressed_buf.take st.write_ptr)).length ≤
      st.compressed_buf.length) :
    ∃ st', st.flush compress cs = .ok st' ∧ st'.write_ptr = 0 ∧
      (((compress (st.decompressed_buf.take st.write_ptr)).length <
          st.write_ptr ∧
        st'.writer = st.writer ++
          (Lz4BlockHeader.mk .LZ4 st.compression_level
            (compress (st.decompressed_buf.take st.write_ptr)).length
            st.write_ptr (cs (st.decompressed_buf.take st.write_ptr))).write ++
          compress (st.decompressed_buf.take st.write_ptr)) ∨
       (st.write_ptr ≤
          (compress (st.decompressed_buf.take st.write_ptr)).length ∧
        st'.writer = st.writer ++
          (Lz4BlockHeader.mk .RAW st.compression_level st.write_ptr
            st.write_ptr (cs (st.decompressed_buf.take st.write_ptr))).write ++
          st.decompressed_buf.take st.write_ptr)) := by
  rw [flush_emits compress cs st h0 hbuf]
  refine ⟨_, rfl, rfl, ?_⟩
  have hd : (st.decompressed_buf.take st.write_ptr).length = st.write_ptr := by
    simp [List.length_take]
    omega
  unfold encodeBlock
  rw [hd]
  by_cases hc : (compress (st.decompressed_buf.take st.write_ptr)).length <
      st.write_ptr
  · exact Or.inl ⟨hc, by rw [if_pos hc]; simp [List.append_assoc]⟩
  · exact Or.inr ⟨by omega, by rw [if_neg hc]; simp [List.append_assoc]⟩

/-- Witness for `C5_method_selection`: a 3-byte accumulation with a
primitive that outputs one byte selects lz4; with the identity primitive it
selects stored. -/
theorem C5_method_selection_witness :
    (∃ st', Lz4BlockOutput.flush (fun _ => [7]) (fun _ => 5)
        (Lz4BlockOutput.mk [] ⟨0⟩ 3 [46, 46, 46] (List.replicate 20 0)) =
        .ok st' ∧ st'.write_ptr = 0 ∧
      ((((fun (_ : List Byte) => [7]) [46, 46, 46]).length < 3 ∧
        st'.writer = [] ++
          (Lz4BlockHeader.mk .LZ4 ⟨0⟩
            ((fun (_ : List Byte) => [7]) [46, 46, 46]).length 3 5).write ++
          [7]) ∨
       (3 ≤ ((fun (_ : List Byte) => [7]) [46, 46, 46]).length ∧
        st'.writer = [] ++
          (Lz4BlockHeader.mk .RAW ⟨0⟩ 3 3 5).write ++ [46, 46, 46]))) := by
  have h := C5_method_selection (fun _ => [7]) (fun _ => 5)
    (Lz4BlockOutput.mk [] ⟨0⟩ 3 [46, 46, 46] (List.replicate 20 0))
    (by decide) (by decide) (by decide)
  simpa using h

-- C10: the write-cursor invariant and the unreachable Internal errors

/-- The `Lz4BlockOutput` buffer invariant: the cursor never passes the end
of the accumulation buffer. -/
def outInv (st : Lz4BlockOutput) : Prop :=
  st.write_ptr ≤ st.decompressed_buf.length

/-- C10: `write_ptr ≤ decompressed_buf.len()` holds after construction and
is preserved by every `write` and `flush` (flush resets the cursor, write
first flushes a full buffer then copies at most the remaining capacity), so
the `Internal` error branches of `copy_to_buf` and `remaining_buf_len` are
unreachable through `write`. -/
theorem C10_write_ptr_invariant (compress : List Byte → List Byte)
    (cs : List Byte → Nat) (bound : Nat → Nat) :
    (∀ block_size st,
      Lz4BlockOutput.with_checksum bound block_size = .ok st →
        outInv st ∧ st.write_ptr = 0) ∧
    (∀ st st', outInv st → st.flush compress cs = .ok st' →
      outInv st' ∧ st'.write_ptr = 0) ∧
    (∀ st buf, outInv st →
      (∀ s, Lz4BlockOutput.write compress cs st buf ≠ .error (.internal s)) ∧
      (∀ st' n, Lz4BlockOutput.write compress cs st buf = .ok (st', n) →
        outInv st')) := by
  refine ⟨?_, ?_, ?_⟩
  · intro block_size st h
    unfold Lz4BlockOutput.with_checksum at h
    split at h
    · cases h
    · injection h with h
      subst h
      exact ⟨by simp [outInv], rfl⟩
  · intro st st' _ h
    obtain ⟨h0, hbufeq, -, -⟩ := flush_ok_fields compress cs st st' h
    exact ⟨by simp [outInv, h0], h0⟩
  · intro st buf hinv
    unfold Lz4BlockOutput.write
    rcases hfl : (if st.write_ptr = st.decompressed_buf.length
        then st.flush compress cs else .ok st) with e | st''
    · have he : e = .lz4Failure := by
        by_cases hp : st.write_ptr = st.decompressed_buf.length
        · rw [if_pos hp] at hfl
          exact flush_error_lz4 compress cs st e hfl
        · rw [if_neg hp] at hfl
          cases hfl
      subst he
      refine ⟨fun s h => ?_, fun st' n h => ?_⟩ <;> cases h
    · have hinv'' : outInv st'' := by
        by_cases hp : st.write_ptr = st.decompressed_buf.length
        · rw [if_pos hp] at hfl
          obtain ⟨h0, hbufeq, -, -⟩ := flush_ok_fields compress cs st st'' hfl
          simp [outInv, h0]
        · rw [if_neg hp] at hfl
          injection hfl with hfl
          subst hfl
          exact hinv
      dsimp only
      rw [show st''.remaining_buf_len =
          .ok (st''.decompressed_buf.length - st''.write_ptr) from by
        unfold Lz4BlockOutput.remaining_buf_len
        rw [if_pos (show st''.write_ptr ≤ st''.decompressed_buf.length
          from hinv'')]]
      dsimp only
      rw [copy_to_buf_ok st'' _ (by
        simp only [List.length_take]
        omega)]
      refine ⟨fun s h => by exact absurd h (by simp), fun st' n h => ?_⟩
      injection h with h
      injection h with h1 h2
      subst h1
      unfold outInv
      have hle : st''.write_ptr ≤ st''.decompressed_buf.length := hinv''
      simp only [List.length_append, List.length_take, List.length_drop]
      simp only [Nat.min_def]
      split_ifs <;> omega

set_option maxRecDepth 10000 in
/-- Witness for `C10_write_ptr_invariant` at a concrete construction,
flush and write. -/
theorem C10_write_ptr_invariant_witness :
    (outInv (Lz4BlockOutput.mk [] ⟨0⟩ 0 (List.replicate 64 0)
        (List.replicate 1044 0)) ∧
      (Lz4BlockOutput.mk [] ⟨0⟩ 0 (List.replicate 64 0)
        (List.replicate 1044 0)).write_ptr = 0) ∧
    (∀ s, Lz4BlockOutput.write (fun d => d) (fun _ => 5)
        (Lz4BlockOutput.mk [] ⟨0⟩ 2 [0, 0, 0, 0] [0, 0, 0, 0, 0]) [9] ≠
        .error (.internal s)) := by
  constructor
  · exact (C10_write_ptr_invariant (fun d => d) (fun _ => 5)
      (fun n => 16 + n + n / 255)).1 64 _ (by decide)
  · exact ((C10_write_ptr_invariant (fun d => d) (fun _ => 5)
      (fun n => 16 + n + n / 255)).2.2
      (Lz4BlockOutput.mk [] ⟨0⟩ 2 [0, 0, 0, 0] [0, 0, 0, 0, 0]) [9]
      (by unfold outInv; decide)).1

-- C8: no empty terminator block is written on drop

set_option maxRecDepth 10000 in
/-- C8 counterexample: the writer pipeline of the repository's own
`write_basic` test (write `...` with block size 128, then drop) produces
exactly the 24-byte reference stream: no 21-byte empty terminator block
follows the data block, contradicting the claim that one is emitted on
final close. -/
theorem C8_counterexample_no_terminator_on_drop :
    c8_run = VALID_DATA ∧ c8_run.length = 24 ∧
    c8_run.drop 3 ≠ EMPTY_TERMINATOR ∧
    c8_run ≠ VALID_DATA ++ EMPTY_TERMINATOR := by decide

/-- C8 amended: on drop, `Lz4BlockOutput` only flushes: with an empty
accumulation buffer nothing at all is emitted, and with a non-empty one a
single data block with `decompressed_len = write_ptr > 0` is emitted — an
empty terminator block (`decompressed_len = 0`) is never written. -/
theorem C8_amended_drop_flushes_without_terminator
    (compress : List Byte → List Byte) (cs : List Byte → Nat)
    (st : Lz4BlockOutput) (hinv : st.write_ptr ≤ st.decompressed_buf.length)
    (hbuf : (compress (st.decompressed_buf.take st.write_ptr)).length ≤
      st.compressed_buf.length) :
    (st.write_ptr = 0 →
      Lz4BlockOutput.dropOut compress cs st = st.writer) ∧
    (0 < st.write_ptr → ∃ hdr payload, hdr.decompressed_len = st.write_ptr ∧
      0 < hdr.decompressed_len ∧
      Lz4BlockOutput.dropOut compress cs st =
        st.writer ++ Lz4BlockHeader.write hdr ++ payload) := by
  constructor
  · intro h0
    unfold Lz4BlockOutput.dropOut
    rw [flush_skips compress cs st h0]
  · intro h0
    unfold Lz4BlockOutput.dropOut
    rw [flush_emits compress cs st h0 hbuf]
    have hd : (st.decompressed_buf.take st.write_ptr).length = st.write_ptr := by
      simp [List.length_take]
      omega
    unfold encodeBlock
    by_cases hc : (compress (st.decompressed_buf.take st.write_ptr)).length <
        (st.decompressed_buf.take st.write_ptr).length
    · rw [if_pos hc]
      refine ⟨⟨.LZ4, st.compression_level,
          (compress (st.decompressed_buf.take st.write_ptr)).length,
          (st.decompressed_buf.take st.write_ptr).length,
          cs (st.decompressed_buf.take st.write_ptr)⟩,
        compress (st.decompressed_buf.take st.write_ptr), hd, ?_, ?_⟩
      · show 0 < (st.decompressed_buf.take st.write_ptr).length
        omega
      · simp [List.append_assoc]
    · rw [if_neg hc]
      refine ⟨⟨.RAW, st.compression_level,
          (st.decompressed_buf.take st.write_ptr).length,
          (st.decompressed_buf.take st.write_ptr).length,
          cs (st.decompressed_buf.take st.write_ptr)⟩,
        st.decompressed_buf.take st.write_ptr, hd, ?_, ?_⟩
      · show 0 < (st.decompressed_buf.take st.write_ptr).length
        omega
      · simp [List.append_assoc]

/-- Witness for `C8_amended_drop_flushes_without_terminator`. -/
theorem C8_amended_drop_flushes_without_terminator_witness :
    Lz4BlockOutput.dropOut (fun d => d) (fun _ => 5)
        (Lz4BlockOutput.mk [1, 2] ⟨0⟩ 0 [0, 0, 0, 0] [0, 0, 0, 0, 0]) =
      [1, 2] :=
  (C8_amended_drop_flushes_without_terminator (fun d => d)
    (fun _ => 5) (Lz4BlockOutput.mk [1, 2] ⟨0⟩ 0 [0, 0, 0, 0] [0, 0, 0, 0, 0])
    (by decide) (by decide)).1 rfl

-- Lz4BlockInput (the decompressing adapter, over a byte-list source)

/-- The state of `Lz4BlockInput` over a byte-list source: the remaining
source, the two owned buffers, the delivery cursor and the termination
policy. -/
structure Lz4BlockInput where
  reader : List Byte
  compressed_buf : List Byte
  decompressed_buf : List Byte
  read_ptr : Nat
  stop_on_empty_block : Bool
  deriving Repr, DecidableEq

/-- `Lz4BlockInput::with_checksum` (the two buffers start empty). -/
def Lz4BlockInput.with_checksum (r : List Byte) (stop_on_empty_block : Bool) :
    Lz4BlockInput :=
  { reader := r, compressed_buf := [], decompressed_buf := [], read_ptr := 0,
    stop_on_empty_block := stop_on_empty_block }

/-- `Lz4BlockInput::new`: default construction — default checksum, default
context and `stop_on_empty_block = true`. -/
def Lz4BlockInput.new (r : List Byte) : Lz4BlockInput :=
  Lz4BlockInput.with_checksum r true

/-- `ensure_vec`: `reserve` has no observable effect on contents;
`resize_with(desired_len, u8::default)` keeps existing elements and pads
with zeros. -/
def ensure_vec (v : List Byte) (max_block_size : Nat) (desired_len : Nat) :
    List Byte :=
  v.take desired_len ++ List.replicate (desired_len - v.length) 0

lemma ensure_vec_length (v : List Byte) (m n : Nat) :
    (ensure_vec v m n).length = n := by
  simp [ensure_vec, List.length_take, List.length_replicate]
  omega

/-- `Lz4BlockInput::read_header`: loop reading block headers, skipping
empty blocks unless `stop_on_empty_block` stops at the first one (`fuel`
bounds the loop; any fuel above the number of leading empty blocks is
sufficient). -/
def Lz4BlockInput.read_header (stop : Bool) (fuel : Nat)
    (source : List Byte) : Except Err (Option Lz4BlockHeader × List Byte) :=
  match fuel with
  | 0 => .error (.internal "out of fuel")
  | fuel + 1 =>
    match Lz4BlockHeader.read source with
    | .error e => .error e
    | .ok (none, r) => .ok (none, r)
    | .ok (some h, r) =>
      if 0 < h.decompressed_len then .ok (some h, r)
      else if stop then .ok (none, r)
      else Lz4BlockInput.read_header stop fuel r

/-- The delivery step of `Lz4BlockInput::read`: copy up to
`min n (remaining)` bytes of the pending block and advance the cursor. -/
def Lz4BlockInput.deliver (st : Lz4BlockInput) (n : Nat) :
    List Byte × Lz4BlockInput :=
  let size_to_copy := min n (st.decompressed_buf.length - st.read_ptr)
  ((st.decompressed_buf.drop st.read_ptr).take size_to_copy,
   { st with read_ptr := st.read_ptr + size_to_copy })

/-- The tail of a refill in `Lz4BlockInput::read`: verify the checksum of
the freshly filled block, reset the cursor, and fall through to delivery. -/
def Lz4BlockInput.check_and_serve (cs : List Byte → Nat) (st : Lz4BlockInput)
    (header : Lz4BlockHeader) (n : Nat) :
    Except Err (List Byte × Lz4BlockInput) :=
  if cs st.decompressed_buf ≠ header.checksum then .error .corruptedStream
  else .ok (Lz4BlockInput.deliver { st with read_ptr := 0 } n)

/-- `Lz4BlockInput::read`: serve from the pending block when it has bytes
left; otherwise read the next header, fill and verify one block
(`decompress input out_len` is the LZ4 capability writing into an
`out_len`-byte buffer, `bound` its worst-case bound, `cs` the checksum;
a short `read_exact` inside a payload surfaces the `UnexpectedEof` I/O
error), and serve from it. -/
def Lz4BlockInput.read
    (decompress : List Byte → Nat → Except Err (List Byte))
    (bound : Nat → Nat) (cs : List Byte → Nat) (fuel : Nat)
    (st : Lz4BlockInput) (n : Nat) : Except Err (List Byte × Lz4BlockInput) :=
  if st.read_ptr = st.decompressed_buf.length then
    match Lz4BlockInput.read_header st.stop_on_empty_block fuel st.reader with
    | .error e => .error e
    | .ok (none, r) => .ok ([], { st with reader := r })
    | .ok (some header, r) =>
      let dbuf := ensure_vec st.decompressed_buf
        header.compression_level.get_max_decompressed_buffer_len
        header.decompressed_len
      match header.compression_method with
      | .RAW =>
        if r.length < dbuf.length then .error .ioUnexpectedEof
        else
          Lz4BlockInput.check_and_serve cs
            { st with reader := r.drop dbuf.length
                      decompressed_buf := r.take dbuf.length } header n
      | .LZ4 =>
        let cbuf := ensure_vec st.compressed_buf
          (bound header.compression_level.get_max_decompressed_buffer_len)
          header.compressed_len
        if r.length < cbuf.length then .error .ioUnexpectedEof
        else
          match decompress (r.take cbuf.length) dbuf.length with
          | .error e => .error e
          | .ok out =>
            if out.length ≠ dbuf.length then .error .corruptedStream
            else
              Lz4BlockInput.check_and_serve cs
                { st with reader := r.drop cbuf.length
                          compressed_buf := r.take cbuf.length
                          decompressed_buf := out } header n
  else
    .ok (Lz4BlockInput.deliver st n)

/-- A request size larger than any representable decompressed block
(`decompressed_len ≤ 2^25`). -/
def BIG_REQUEST : Nat := 2 ^ 25 + 1

/-- `Read::read_to_end`: loop `read` until it returns zero bytes, appending
to `acc`; each call requests more than a maximal block, so whole blocks are
served (`fuel` bounds the loop; `read_header` gets fuel above anything the
skip loop can consume). -/
def Lz4BlockInput.read_to_end
    (decompress : List Byte → Nat → Except Err (List Byte))
    (bound : Nat → Nat) (cs : List Byte → Nat) (fuel : Nat)
    (st : Lz4BlockInput) (acc : List Byte) : Except Err (List Byte) :=
  match fuel with
  | 0 => .error (.internal "out of fuel")
  | fuel + 1 =>
    match Lz4BlockInput.read decompress bound cs (st.reader.length + 1) st
        BIG_REQUEST with
    | .error e => .error e
    | .ok (out, st') =>
      if out.isEmpty then .ok acc
      else Lz4BlockInput.read_to_end decompress bound cs fuel st' (acc ++ out)

/-- A source shorter than the 21-byte header is a clean end of stream. -/
lemma read_short (s : List Byte) (h : s.length < 21) :
    Lz4BlockHeader.read s = .ok (none, s) := by
  unfold Lz4BlockHeader.read
  split
  · simp at h
    omega
  · rfl

/-- Reading a stream that starts with the empty terminator block yields the
all-zero header and consumes exactly its 21 bytes. -/
lemma read_empty_terminator (t : List Byte) :
    Lz4BlockHeader.read (EMPTY_TERMINATOR ++ t) =
      .ok (some ⟨.RAW, ⟨0⟩, 0, 0, 0⟩, t) := rfl

/-- C6: with `stop_on_empty_block = true`, the first parsed header with
`decompressed_len = 0` — whatever its method and level token — ends the
stream: `read` returns zero bytes and no byte after that 21-byte header
is consumed; with `false`, any such header is skipped and the header loop
continues on the remaining source, reaching a non-empty block or a clean
end-of-file. -/
theorem C6_empty_block_discriminant
    (decompress : List Byte → Nat → Except Err (List Byte))
    (bound : Nat → Nat) (cs : List Byte → Nat) :
    (∀ (st : Lz4BlockInput) (h : Lz4BlockHeader) (r : List Byte) (n fuel : Nat),
      st.stop_on_empty_block = true →
      st.read_ptr = st.decompressed_buf.length →
      Lz4BlockHeader.read st.reader = .ok (some h, r) →
      h.decompressed_len = 0 →
      Lz4BlockInput.read decompress bound cs (fuel + 1) st n =
        .ok ([], { st with reader := r })) ∧
    (∀ (fuel : Nat) (s r : List Byte) (h : Lz4BlockHeader),
      Lz4BlockHeader.read s = .ok (some h, r) → h.decompressed_len = 0 →
      Lz4BlockInput.read_header false (fuel + 1) s =
        Lz4BlockInput.read_header false fuel r) ∧
    (∀ (stop : Bool) (fuel : Nat),
      Lz4BlockInput.read_header stop (fuel + 1) [] = .ok (none, [])) ∧
    (∀ (stop : Bool) (fuel : Nat) (s r : List Byte) (h : Lz4BlockHeader),
      Lz4BlockHeader.read s = .ok (some h, r) → 0 < h.decompressed_len →
      Lz4BlockInput.read_header stop (fuel + 1) s = .ok (some h, r)) := by
  refine ⟨?_, ?_, ?_, ?_⟩
  · intro st h r n fuel hstop hptr hread hzero
    unfold Lz4BlockInput.read
    rw [if_pos hptr, hstop]
    unfold Lz4BlockInput.read_header
    rw [hread]
    dsimp only
    rw [if_neg (show ¬ 0 < h.decompressed_len by omega), if_pos rfl]
  · intro fuel s r h hread hzero
    have step : Lz4BlockInput.read_header false (fuel + 1) s =
        match Lz4BlockHeader.read s with
        | .error e => .error e
        | .ok (none, r) => .ok (none, r)
        | .ok (some h, r) =>
          if 0 < h.decompressed_len then .ok (some h, r)
          else if false then .ok (none, r)
          else Lz4BlockInput.read_header false fuel r := rfl
    rw [step, hread]
    dsimp only
    rw [if_neg (show ¬ 0 < h.decompressed_len by omega),
      if_neg (show ¬ false = true by decide)]
  · intro stop fuel
    rfl
  · intro stop fuel s r h hread hpos
    unfold Lz4BlockInput.read_header
    rw [hread]
    dsimp only
    rw [if_pos hpos]

/-- An empty block whose token `0x16` carries method RAW and level 6:
`decompressed_len = 0` with a token other than the canonical `0x10`
terminator. -/
def EMPTY_BLOCK_L6 : List Byte :=
  [76, 90, 52, 66, 108, 111, 99, 107, 0x16,
   0, 0, 0, 0, 0, 0, 0, 0, 0, 0, 0, 0]

/-- Witness for `C6_empty_block_discriminant` on concrete streams, using
the non-canonical empty block with token `0x16`. -/
theorem C6_empty_block_discriminant_witness :
    Lz4BlockInput.read (fun input _ => .ok input) (fun n => 16 + n + n / 255)
        Lz4BlockHeader.default_checksum 1
        (Lz4BlockInput.mk (EMPTY_BLOCK_L6 ++ [9, 9]) [] [] 0 true) 5 =
      .ok ([], Lz4BlockInput.mk [9, 9] [] [] 0 true) ∧
    Lz4BlockInput.read_header false 1 (EMPTY_BLOCK_L6 ++ [9, 9]) =
      Lz4BlockInput.read_header false 0 [9, 9] ∧
    Lz4BlockInput.read_header true 1 [] = .ok (none, []) :=
  ⟨(C6_empty_block_discriminant (fun input _ => .ok input)
      (fun n => 16 + n + n / 255) Lz4BlockHeader.default_checksum).1
      (Lz4BlockInput.mk (EMPTY_BLOCK_L6 ++ [9, 9]) [] [] 0 true)
      ⟨.RAW, ⟨6⟩, 0, 0, 0⟩ [9, 9] 5 0 rfl rfl (by decide) rfl,
   (C6_empty_block_discriminant (fun input _ => .ok input)
      (fun n => 16 + n + n / 255) Lz4BlockHeader.default_checksum).2.1 0
      (EMPTY_BLOCK_L6 ++ [9, 9]) [9, 9] ⟨.RAW, ⟨6⟩, 0, 0, 0⟩ (by decide) rfl,
   (C6_empty_block_discriminant (fun input _ => .ok input)
      (fun n => 16 + n + n / 255) Lz4BlockHeader.default_checksum).2.2.1 true 0⟩

-- C7: what truncation actually does

lemma header_write_length (H : Lz4BlockHeader) : H.write.length = 21 := by
  simp [Lz4BlockHeader.write, u32_to_le_bytes, MAGIC_HEADER]

/-- The header of a stored block with a non-empty payload is well formed. -/
lemma wf_stored (lvl : Nat) (d : List Byte) (cs : List Byte → Nat)
    (hlvl : lvl ≤ 15) (hd0 : 0 < d.length)
    (hdlen : d.length ≤ 2 ^ (10 + lvl)) (hcs : cs d < 2 ^ 32) :
    (Lz4BlockHeader.mk .RAW ⟨lvl⟩ d.length d.length (cs d)).wellFormed := by
  have hpow : (2 : Nat) ^ (10 + lvl) ≤ 2 ^ 25 :=
    Nat.pow_le_pow_right (by norm_num) (by omega)
  unfold Lz4BlockHeader.wellFormed
  dsimp only
  refine ⟨hlvl, hdlen, by omega, Iff.rfl, fun _ => rfl, by omega, hcs⟩

/-- At a block boundary, a source shorter than one header is a clean end of
stream: `read` returns zero bytes and the state is unchanged. -/
lemma read_eos (decompress : List Byte → Nat → Except Err (List Byte))
    (bound : Nat → Nat) (cs : List Byte → Nat) (st : Lz4BlockInput)
    (fuel n : Nat) (hptr : st.read_ptr = st.decompressed_buf.length)
    (hshort : st.reader.length < 21) :
    Lz4BlockInput.read decompress bound cs (fuel + 1) st n = .ok ([], st) := by
  unfold Lz4BlockInput.read
  rw [if_pos hptr]
  unfold Lz4BlockInput.read_header
  rw [read_short _ hshort]

lemma read_to_end_eos (decompress : List Byte → Nat → Except Err (List Byte))
    (bound : Nat → Nat) (cs : List Byte → Nat) (st : Lz4BlockInput)
    (fuel : Nat) (acc : List Byte)
    (hptr : st.read_ptr = st.decompressed_buf.length)
    (hshort : st.reader.length < 21) :
    Lz4BlockInput.read_to_end decompress bound cs (fuel + 1) st acc =
      .ok acc := by
  unfold Lz4BlockInput.read_to_end
  rw [read_eos decompress bound cs st _ _ hptr hshort]
  rfl

set_option maxRecDepth 10000 in
/-- C7 counterexample: truncating the 24-byte reference stream to its first
10 bytes — strictly inside the block header — decodes cleanly to zero bytes
(the partial header is treated as end of stream, exactly as the
repository's `read_too_small` test asserts), not as a `CorruptedStream`
error; and in stop-on-empty mode a terminator-less stream cut exactly on
its block boundary also decodes cleanly (the repository's `read_basic`
test), not as `CorruptedStream`. -/
theorem C7_counterexample_truncation_is_clean_eof :
    Lz4BlockInput.read_to_end (fun input _ => .ok input)
        (fun n => 16 + n + n / 255) Lz4BlockHeader.default_checksum 2
        (Lz4BlockInput.new (VALID_DATA.take 10)) [] = .ok [] ∧
    (VALID_DATA.take 10).length = 10 ∧
    Lz4BlockInput.read_to_end (fun input _ => .ok input)
        (fun n => 16 + n + n / 255) Lz4BlockHeader.default_checksum 3
        (Lz4BlockInput.new VALID_DATA) [] = .ok [46, 46, 46] := by decide

-- Chunk decomposition (the block boundary discipline of the round trip)

/-- Split a list into `B`-sized chunks, the last possibly shorter; any
`fuel ≥ length` completes the split. -/
def chunksF (B : Nat) : Nat → List Byte → List (List Byte)
  | _, [] => []
  | 0, l => [l]
  | fuel + 1, l => l.take B :: chunksF B fuel (l.drop B)

/-- The canonical chunk decomposition. -/
def chunks (B : Nat) (l : List Byte) : List (List Byte) :=
  chunksF B l.length l

lemma chunksF_join (B : Nat) (hB : 0 < B) :
    ∀ fuel l, (chunksF B fuel l).flatten = l := by
  intro fuel
  induction fuel with
  | zero =>
    intro l
    cases l <;> simp [chunksF]
  | succ fuel ih =>
    intro l
    cases l with
    | nil => simp [chunksF]
    | cons a l =>
      show (List.take B (a :: l) :: chunksF B fuel ((a :: l).drop B)).flatten =
        a :: l
      rw [List.flatten_cons, ih]
      exact List.take_append_drop B (a :: l)

lemma chunks_join (B : Nat) (hB : 0 < B) (l : List Byte) :
    (chunks B l).flatten = l :=
  chunksF_join B hB l.length l

lemma chunksF_nil (B : Nat) : ∀ fuel, chunksF B fuel [] = [] := by
  intro fuel
  cases fuel <;> rfl

/-- The chunk decomposition does not depend on the fuel once it covers the
length. -/
lemma chunksF_irrel (B : Nat) (hB : 0 < B) :
    ∀ n (l : List Byte), l.length ≤ n → ∀ f1 f2, l.length ≤ f1 →
      l.length ≤ f2 → chunksF B f1 l = chunksF B f2 l := by
  intro n
  induction n with
  | zero =>
    intro l hl f1 f2 h1 h2
    have hnil : l = [] := by
      cases l
      · rfl
      · simp at hl
    subst hnil
    rw [chunksF_nil, chunksF_nil]
  | succ n ih =>
    intro l hl f1 f2 h1 h2
    cases l with
    | nil => rw [chunksF_nil, chunksF_nil]
    | cons a l =>
      cases f1 with
      | zero => simp at h1
      | succ f1 =>
        cases f2 with
        | zero => simp at h2
        | succ f2 =>
          show List.take B (a :: l) :: chunksF B f1 ((a :: l).drop B) =
            List.take B (a :: l) :: chunksF B f2 ((a :: l).drop B)
          simp only [List.length_cons] at hl h1 h2
          rw [ih ((a :: l).drop B)
            (by simp only [List.length_drop, List.length_cons]; omega) f1 f2
            (by simp only [List.length_drop, List.length_cons]; omega)
            (by simp only [List.length_drop, List.length_cons]; omega)]

lemma chunksF_canon (B : Nat) (hB : 0 < B) (fuel : Nat) (l : List Byte)
    (hl : l.length ≤ fuel) : chunksF B fuel l = chunks B l :=
  chunksF_irrel B hB l.length l le_rfl fuel l.length hl le_rfl

/-- Splitting off one full block. -/
lemma chunks_cons_full (B : Nat) (hB : 0 < B) (p S : List Byte)
    (hp : p.length = B) : chunks B (p ++ S) = p :: chunks B S := by
  cases p with
  | nil =>
    simp at hp
    omega
  | cons a p =>
    have ht : ((a :: p) ++ S).take B = a :: p := by
      rw [← hp]
      exact List.take_left (a :: p) S
    have hd : ((a :: p) ++ S).drop B = S := by
      rw [← hp]
      exact List.drop_left (a :: p) S
    show ((a :: p) ++ S).take B ::
      chunksF B (p ++ S).length (((a :: p) ++ S).drop B) = (a :: p) :: chunks B S
    rw [ht, hd]
    rw [chunksF_canon B hB (p ++ S).length S (by simp)]

/-- A short non-empty list is a single chunk. -/
lemma chunks_of_le (B : Nat) (hB : 0 < B) (l : List Byte) (h0 : l ≠ [])
    (h1 : l.length ≤ B) : chunks B l = [l] := by
  cases l with
  | nil => exact absurd rfl h0
  | cons a l =>
    show List.take B (a :: l) :: chunksF B l.length ((a :: l).drop B) =
      [a :: l]
    rw [List.take_of_length_le h1, List.drop_eq_nil_of_le h1, chunksF_nil]

/-- Every chunk is non-empty and at most `B` long. -/
lemma chunksF_bounds (B : Nat) (hB : 0 < B) :
    ∀ fuel (l : List Byte), l.length ≤ fuel →
      ∀ c ∈ chunksF B fuel l, 0 < c.length ∧ c.length ≤ B := by
  intro fuel
  induction fuel with
  | zero =>
    intro l hl c hc
    have hnil : l = [] := by
      cases l
      · rfl
      · simp at hl
    subst hnil
    simp [chunksF_nil] at hc
  | succ fuel ih =>
    intro l hl c hc
    cases l with
    | nil => simp [chunksF_nil] at hc
    | cons a l =>
      rw [show chunksF B (fuel + 1) (a :: l) =
        List.take B (a :: l) :: chunksF B fuel ((a :: l).drop B) from rfl] at hc
      rcases List.mem_cons.mp hc with rfl | hc'
      · constructor
        · simp only [List.length_take, List.length_cons]
          omega
        · simp only [List.length_take, List.length_cons]
          omega
      · exact ih ((a :: l).drop B)
          (by simp only [List.length_drop, List.length_cons] at hl ⊢; omega)
          c hc'

lemma chunks_bounds (B : Nat) (hB : 0 < B) (l : List Byte) :
    ∀ c ∈ chunks B l, 0 < c.length ∧ c.length ≤ B :=
  chunksF_bounds B hB l.length l le_rfl

-- Writer pipeline: write_all followed by drop emits exactly the chunked blocks

lemma write_step_copy (compress : List Byte → List Byte)
    (cs : List Byte → Nat) (st : Lz4BlockOutput) (buf : List Byte)
    (hlt : st.write_ptr < st.decompressed_buf.length) :
    Lz4BlockOutput.write compress cs st buf = .ok ({ st with
      decompressed_buf := st.decompressed_buf.take st.write_ptr ++
        buf.take (min buf.length
          (st.decompressed_buf.length - st.write_ptr)) ++
        st.decompressed_buf.drop (st.write_ptr +
          min buf.length (st.decompressed_buf.length - st.write_ptr))
      write_ptr := st.write_ptr +
        min buf.length (st.decompressed_buf.length - st.write_ptr) },
      min buf.length (st.decompressed_buf.length - st.write_ptr)) := by
  unfold Lz4BlockOutput.write
  rw [if_neg (by omega)]
  dsimp only
  rw [show st.remaining_buf_len =
      .ok (st.decompressed_buf.length - st.write_ptr) from by
    unfold Lz4BlockOutput.remaining_buf_len
    rw [if_pos (by omega)]]
  dsimp only
  rw [copy_to_buf_ok st _ (by simp only [List.length_take]; omega)]
  rw [show (buf.take (min buf.length
      (st.decompressed_buf.length - st.write_ptr))).length =
      min buf.length (st.decompressed_buf.length - st.write_ptr) from by
    simp only [List.length_take]
    omega]

lemma write_step_full (compress : List Byte → List Byte)
    (cs : List Byte → Nat) (st : Lz4BlockOutput) (buf : List Byte)
    (hlen0 : 0 < st.decompressed_buf.length)
    (heq : st.write_ptr = st.decompressed_buf.length)
    (hadeq : (compress (st.decompressed_buf.take st.write_ptr)).length ≤
      st.compressed_buf.length) :
    Lz4BlockOutput.write compress cs st buf = .ok ({ st with
      writer := st.writer ++
        encodeBlock compress cs st.compression_level st.decompressed_buf
      decompressed_buf :=
        buf.take (min buf.length st.decompressed_buf.length) ++
        st.decompressed_buf.drop (min buf.length st.decompressed_buf.length)
      write_ptr := min buf.length st.decompressed_buf.length },
      min buf.length st.decompressed_buf.length) := by
  have htake : st.decompressed_buf.take st.write_ptr = st.decompressed_buf := by
    rw [heq]
    exact List.take_length _
  unfold Lz4BlockOutput.write
  rw [if_pos heq]
  rw [flush_emits compress cs st (by omega) hadeq]
  rw [htake]
  dsimp only
  rw [show Lz4BlockOutput.remaining_buf_len { st with
      writer := st.writer ++
        encodeBlock compress cs st.compression_level st.decompressed_buf
      write_ptr := 0 } = .ok (st.decompressed_buf.length - 0) from by
    unfold Lz4BlockOutput.remaining_buf_len
    rw [if_pos (by dsimp only; omega)]]
  dsimp only
  rw [copy_to_buf_ok _ _ (by
    dsimp only
    simp only [List.length_take]
    omega)]
  dsimp only
  simp only [Nat.sub_zero, List.take_zero, List.nil_append, Nat.zero_add,
    List.length_take]
  rw [show min (min buf.length st.decompressed_buf.length) buf.length =
      min buf.length st.decompressed_buf.length from by omega]

lemma take_len_append (b rest : List Byte) (n : Nat) (h : b.length = n) :
    (b ++ rest).take n = b := by
  subst h
  exact List.take_left b rest

lemma take_len_append2 (a b rest : List Byte) (n : Nat)
    (h : a.length + b.length = n) : (a ++ b ++ rest).take n = a ++ b := by
  rw [show n = (a ++ b).length from by rw [List.length_append]; omega]
  exact List.take_left (a ++ b) rest

/-- Feeding `S` through `write_all` and then dropping the adapter emits
exactly one block per chunk of `pending ++ S`. -/
lemma write_pipeline (compress : List Byte → List Byte)
    (cs : List Byte → Nat) :
    ∀ (fuel : Nat) (S : List Byte) (st : Lz4BlockOutput),
      S.length < fuel →
      st.write_ptr ≤ st.decompressed_buf.length →
      0 < st.decompressed_buf.length →
      (∀ d : List Byte, d.length ≤ st.decompressed_buf.length →
        (compress d).length ≤ st.compressed_buf.length) →
      ∃ st', Lz4BlockOutput.write_all compress cs fuel st S = .ok st' ∧
        Lz4BlockOutput.dropOut compress cs st' =
          st.writer ++
            ((chunks st.decompressed_buf.length
                (st.decompressed_buf.take st.write_ptr ++ S)).map
              (encodeBlock compress cs st.compression_level)).flatten := by
  intro fuel
  induction fuel with
  | zero =>
    intro S st hf
    omega
  | succ fuel ih =>
    intro S st hf hinv hB hadeq
    unfold Lz4BlockOutput.write_all
    by_cases hS : S.isEmpty
    · rw [if_pos hS]
      have hSnil : S = [] := by
        cases S
        · rfl
        · simp at hS
      subst hSnil
      refine ⟨st, rfl, ?_⟩
      rw [List.append_nil]
      by_cases hp : st.write_ptr = 0
      · unfold Lz4BlockOutput.dropOut
        rw [flush_skips compress cs st hp, hp, List.take_zero]
        simp [chunks, chunksF]
      · unfold Lz4BlockOutput.dropOut
        rw [flush_emits compress cs st (by omega)
          (hadeq _ (by simp only [List.length_take]; omega))]
        dsimp only
        rw [chunks_of_le _ hB _
          (by
            apply List.ne_nil_of_length_pos
            simp only [List.length_take]
            omega)
          (by simp only [List.length_take]; omega)]
        simp
    · rw [if_neg hS]
      have hSne : S ≠ [] := by
        cases S
        · simp at hS
        · simp
      have hS1 : 1 ≤ S.length := List.length_pos.mpr hSne
      by_cases hp : st.write_ptr = st.decompressed_buf.length
      · rw [write_step_full compress cs st S hB hp
          (hadeq _ (by simp only [List.length_take]; omega))]
        dsimp only
        rw [if_neg (by omega)]
        have hlen1 : (S.take (min S.length st.decompressed_buf.length) ++
            st.decompressed_buf.drop
              (min S.length st.decompressed_buf.length)).length =
            st.decompressed_buf.length := by
          simp only [List.length_append, List.length_take, List.length_drop]
          omega
        obtain ⟨st', hall, hdrop⟩ := ih
          (S.drop (min S.length st.decompressed_buf.length))
          { st with
            writer := st.writer ++
              encodeBlock compress cs st.compression_level st.decompressed_buf
            decompressed_buf :=
              S.take (min S.length st.decompressed_buf.length) ++
              st.decompressed_buf.drop
                (min S.length st.decompressed_buf.length)
            write_ptr := min S.length st.decompressed_buf.length }
          (by simp only [List.length_drop]; omega)
          (by dsimp only; omega)
          (by dsimp only; rw [hlen1]; omega)
          (by dsimp only; rw [hlen1]; exact hadeq)
        refine ⟨st', hall, ?_⟩
        rw [hdrop]
        dsimp only
        rw [hlen1]
        have htk : (S.take (min S.length st.decompressed_buf.length) ++
            st.decompressed_buf.drop
              (min S.length st.decompressed_buf.length)).take
              (min S.length st.decompressed_buf.length) =
            S.take (min S.length st.decompressed_buf.length) :=
          take_len_append _ _ _ (by simp only [List.length_take]; omega)
        rw [htk, List.take_append_drop]
        rw [show st.decompressed_buf.take st.write_ptr = st.decompressed_buf
          from by rw [hp]; exact List.take_length _]
        rw [chunks_cons_full _ hB _ _ rfl]
        simp [List.append_assoc]
      · rw [write_step_copy compress cs st S (by omega)]
        dsimp only
        have hk1 : 1 ≤ min S.length
            (st.decompressed_buf.length - st.write_ptr) := by
          omega
        rw [if_neg (by omega)]
        have hlen1 : (st.decompressed_buf.take st.write_ptr ++
            S.take (min S.length
              (st.decompressed_buf.length - st.write_ptr)) ++
            st.decompressed_buf.drop (st.write_ptr +
              min S.length (st.decompressed_buf.length - st.write_ptr))).length
            = st.decompressed_buf.length := by
          simp only [List.length_append, List.length_take, List.length_drop]
          omega
        obtain ⟨st', hall, hdrop⟩ := ih
          (S.drop (min S.length (st.decompressed_buf.length - st.write_ptr)))
          { st with
            decompressed_buf := st.decompressed_buf.take st.write_ptr ++
              S.take (min S.length
                (st.decompressed_buf.length - st.write_ptr)) ++
              st.decompressed_buf.drop (st.write_ptr +
                min S.length (st.decompressed_buf.length - st.write_ptr))
            write_ptr := st.write_ptr +
              min S.length (st.decompressed_buf.length - st.write_ptr) }
          (by simp only [List.length_drop]; omega)
          (by dsimp only; rw [hlen1]; omega)
          (by dsimp only; rw [hlen1]; omega)
          (by dsimp only; rw [hlen1]; exact hadeq)
        refine ⟨st', hall, ?_⟩
        rw [hdrop]
        dsimp only
        rw [hlen1]
        have htk : (st.decompressed_buf.take st.write_ptr ++
            S.take (min S.length
              (st.decompressed_buf.length - st.write_ptr)) ++
            st.decompressed_buf.drop (st.write_ptr +
              min S.length (st.decompressed_buf.length - st.write_ptr))).take
              (st.write_ptr +
                min S.length (st.decompressed_buf.length - st.write_ptr)) =
            st.decompressed_buf.take st.write_ptr ++
              S.take (min S.length
                (st.decompressed_buf.length - st.write_ptr)) :=
          take_len_append2 _ _ _ _ (by simp only [List.length_take]; omega)
        rw [htk, List.append_assoc, List.take_append_drop]

-- Reader side: one call serves one encoded block

/-- The header of an lz4-method block is well formed when the compressed
payload is non-empty and strictly shorter than the decompressed one. -/
lemma wf_lz4 (lvl : Nat) (c cc : List Byte) (k : Nat)
    (hlvl : lvl ≤ 15) (hc0 : 0 < c.length) (hclen : c.length ≤ 2 ^ (10 + lvl))
    (hcc : 0 < cc.length) (hlt : cc.length < c.length) (hk : k < 2 ^ 32) :
    (Lz4BlockHeader.mk .LZ4 ⟨lvl⟩ cc.length c.length k).wellFormed := by
  have hpow : (2 : Nat) ^ (10 + lvl) ≤ 2 ^ 25 :=
    Nat.pow_le_pow_right (by norm_num) (by omega)
  unfold Lz4BlockHeader.wellFormed
  dsimp only
  refine ⟨hlvl, hclen, by omega, by omega, fun h => absurd h (by decide),
    by omega, hk⟩

/-- At a block boundary, one `read` call on a source that starts with an
encoded block serves exactly that chunk and consumes exactly the block. -/
lemma read_encoded_block (compress : List Byte → List Byte)
    (decompress : List Byte → Nat → Except Err (List Byte))
    (bound : Nat → Nat) (cs : List Byte → Nat) (lvl : Nat)
    (c rest : List Byte) (st : Lz4BlockInput) (fuel : Nat)
    (hlvl : lvl ≤ 15) (hc0 : 0 < c.length)
    (hclen : c.length ≤ 2 ^ (10 + lvl)) (hcs32 : cs c < 2 ^ 32)
    (hne : compress c ≠ [])
    (hrt : decompress (compress c) c.length = .ok c)
    (hptr : st.read_ptr = st.decompressed_buf.length)
    (hreader : st.reader = encodeBlock compress cs ⟨lvl⟩ c ++ rest) :
    ∃ st', Lz4BlockInput.read decompress bound cs (fuel + 1) st BIG_REQUEST =
        .ok (c, st') ∧ st'.reader = rest ∧
      st'.read_ptr = st'.decompressed_buf.length ∧
      st'.stop_on_empty_block = st.stop_on_empty_block := by
  have hpow : (2 : Nat) ^ (10 + lvl) ≤ 2 ^ 25 :=
    Nat.pow_le_pow_right (by norm_num) (by omega)
  have hmin : min BIG_REQUEST (c.length - 0) = c.length := by
    unfold BIG_REQUEST
    omega
  unfold Lz4BlockInput.read
  rw [if_pos hptr, hreader]
  by_cases hcmp : (compress c).length < c.length
  · have hwf := wf_lz4 lvl c (compress c) (cs c) hlvl hc0 hclen
      (List.length_pos.mpr hne) hcmp hcs32
    rw [show encodeBlock compress cs ⟨lvl⟩ c ++ rest =
        (Lz4BlockHeader.mk .LZ4 ⟨lvl⟩ (compress c).length c.length
          (cs c)).write ++ (compress c ++ rest) from by
      unfold encodeBlock
      rw [if_pos hcmp, List.append_assoc]]
    unfold Lz4BlockInput.read_header
    rw [read_write_roundtrip _ hwf _]
    dsimp only
    rw [if_pos (show (0 : Nat) <
      (Lz4BlockHeader.mk .LZ4 ⟨lvl⟩ (compress c).length c.length
        (cs c)).decompressed_len from hc0)]
    dsimp only
    rw [ensure_vec_length, ensure_vec_length]
    rw [if_neg (by simp only [List.length_append]; omega)]
    rw [take_len_append (compress c) rest _ rfl, List.drop_left]
    rw [hrt]
    dsimp only
    rw [if_neg (by simp)]
    unfold Lz4BlockInput.check_and_serve
    dsimp only
    rw [if_neg (by simp)]
    unfold Lz4BlockInput.deliver
    dsimp only
    rw [hmin]
    simp only [List.drop_zero, List.take_length]
    exact ⟨_, rfl, rfl, by dsimp only; omega, rfl⟩
  · have hwf := wf_stored lvl c cs hlvl hc0 hclen hcs32
    rw [show encodeBlock compress cs ⟨lvl⟩ c ++ rest =
        (Lz4BlockHeader.mk .RAW ⟨lvl⟩ c.length c.length (cs c)).write ++
          (c ++ rest) from by
      unfold encodeBlock
      rw [if_neg hcmp, List.append_assoc]]
    unfold Lz4BlockInput.read_header
    rw [read_write_roundtrip _ hwf _]
    dsimp only
    rw [if_pos (show (0 : Nat) <
      (Lz4BlockHeader.mk .RAW ⟨lvl⟩ c.length c.length
        (cs c)).decompressed_len from hc0)]
    dsimp only
    rw [ensure_vec_length]
    rw [if_neg (by simp only [List.length_append]; omega)]
    rw [take_len_append c rest _ rfl, List.drop_left]
    unfold Lz4BlockInput.check_and_serve
    dsimp only
    rw [if_neg (by simp)]
    unfold Lz4BlockInput.deliver
    dsimp only
    rw [hmin]
    simp only [List.drop_zero, List.take_length]
    exact ⟨_, rfl, rfl, by dsimp only; omega, rfl⟩

/-- Reading to end over a concatenation of encoded blocks followed by any
trailing fragment shorter than one 21-byte header returns the
concatenated chunks: the fragment is treated as a clean end of stream. -/
lemma read_to_end_blocks (compress : List Byte → List Byte)
    (decompress : List Byte → Nat → Except Err (List Byte))
    (bound : Nat → Nat) (cs : List Byte → Nat) (lvl : Nat)
    (hlvl : lvl ≤ 15) :
    ∀ (cls : List (List Byte)) (fuel : Nat) (st : Lz4BlockInput)
      (acc tail : List Byte),
      cls.length < fuel →
      (∀ c ∈ cls, 0 < c.length ∧ c.length ≤ 2 ^ (10 + lvl) ∧
        cs c < 2 ^ 32 ∧ compress c ≠ [] ∧
        decompress (compress c) c.length = .ok c) →
      st.read_ptr = st.decompressed_buf.length →
      st.reader = (cls.map (encodeBlock compress cs ⟨lvl⟩)).flatten ++ tail →
      tail.length < 21 →
      Lz4BlockInput.read_to_end decompress bound cs fuel st acc =
        .ok (acc ++ cls.flatten) := by
  intro cls
  induction cls with
  | nil =>
    intro fuel st acc tail hfuel hprops hptr hreader htail
    cases fuel with
    | zero => omega
    | succ fuel =>
      rw [read_to_end_eos decompress bound cs st fuel acc hptr
        (by rw [hreader]; simpa using htail)]
      simp
  | cons c cls ih =>
    intro fuel st acc tail hfuel hprops hptr hreader htail
    cases fuel with
    | zero => omega
    | succ fuel =>
      obtain ⟨hc0, hclen, hcs32, hne, hrt⟩ := hprops c (by simp)
      obtain ⟨st', hread, hr, hp, hs⟩ := read_encoded_block compress decompress
        bound cs lvl c ((cls.map (encodeBlock compress cs ⟨lvl⟩)).flatten ++
          tail) st st.reader.length hlvl hc0 hclen hcs32 hne hrt hptr
        (by rw [hreader]; simp)
      unfold Lz4BlockInput.read_to_end
      rw [hread]
      dsimp only
      rw [if_neg (by
        cases c
        · simp at hc0
        · simp)]
      rw [ih fuel st' (acc ++ c) tail (by simp at hfuel; omega)
        (fun c' hc' => hprops c' (by simp [hc'])) hp hr htail]
      simp [List.append_assoc]

/-- At a block boundary, one `read` call on a source that is an encoded
block cut strictly inside its payload fails with the `UnexpectedEof` I/O
error: the short `read_exact` of the payload is propagated, in both the
stored and the lz4 branch. -/
lemma read_payload_cut (compress : List Byte → List Byte)
    (decompress : List Byte → Nat → Except Err (List Byte))
    (bound : Nat → Nat) (cs : List Byte → Nat) (lvl : Nat)
    (c : List Byte) (st : Lz4BlockInput) (o fuel n : Nat)
    (hlvl : lvl ≤ 15) (hc0 : 0 < c.length)
    (hclen : c.length ≤ 2 ^ (10 + lvl)) (hcs32 : cs c < 2 ^ 32)
    (hne : compress c ≠ [])
    (hptr : st.read_ptr = st.decompressed_buf.length)
    (hreader : st.reader = (encodeBlock compress cs ⟨lvl⟩ c).take o)
    (ho1 : 21 ≤ o) (ho2 : o < (encodeBlock compress cs ⟨lvl⟩ c).length) :
    Lz4BlockInput.read decompress bound cs (fuel + 1) st n =
      .error .ioUnexpectedEof := by
  unfold Lz4BlockInput.read
  rw [if_pos hptr, hreader]
  by_cases hcmp : (compress c).length < c.length
  · have hwf := wf_lz4 lvl c (compress c) (cs c) hlvl hc0 hclen
      (List.length_pos.mpr hne) hcmp hcs32
    have hwl := header_write_length
      (Lz4BlockHeader.mk .LZ4 ⟨lvl⟩ (compress c).length c.length (cs c))
    have henc : encodeBlock compress cs ⟨lvl⟩ c =
        (Lz4BlockHeader.mk .LZ4 ⟨lvl⟩ (compress c).length c.length
          (cs c)).write ++ compress c := by
      unfold encodeBlock
      rw [if_pos hcmp]
    have hlen : (encodeBlock compress cs ⟨lvl⟩ c).length =
        21 + (compress c).length := by
      rw [henc, List.length_append, hwl]
    have hsplit : (encodeBlock compress cs ⟨lvl⟩ c).take o =
        (Lz4BlockHeader.mk .LZ4 ⟨lvl⟩ (compress c).length c.length
          (cs c)).write ++ (compress c).take (o - 21) := by
      rw [henc, List.take_append_eq_append_take, hwl,
        List.take_of_length_le (by rw [hwl]; omega)]
    rw [hsplit]
    unfold Lz4BlockInput.read_header
    rw [read_write_roundtrip _ hwf _]
    dsimp only
    rw [if_pos (show (0 : Nat) <
      (Lz4BlockHeader.mk .LZ4 ⟨lvl⟩ (compress c).length c.length
        (cs c)).decompressed_len from hc0)]
    dsimp only
    rw [ensure_vec_length, ensure_vec_length]
    rw [if_pos (by simp only [List.length_take]; omega)]
  · have hwf := wf_stored lvl c cs hlvl hc0 hclen hcs32
    have hwl := header_write_length
      (Lz4BlockHeader.mk .RAW ⟨lvl⟩ c.length c.length (cs c))
    have henc : encodeBlock compress cs ⟨lvl⟩ c =
        (Lz4BlockHeader.mk .RAW ⟨lvl⟩ c.length c.length (cs c)).write ++
          c := by
      unfold encodeBlock
      rw [if_neg hcmp]
    have hlen : (encodeBlock compress cs ⟨lvl⟩ c).length = 21 + c.length := by
      rw [henc, List.length_append, hwl]
    have hsplit : (encodeBlock compress cs ⟨lvl⟩ c).take o =
        (Lz4BlockHeader.mk .RAW ⟨lvl⟩ c.length c.length (cs c)).write ++
          c.take (o - 21) := by
      rw [henc, List.take_append_eq_append_take, hwl,
        List.take_of_length_le (by rw [hwl]; omega)]
    rw [hsplit]
    unfold Lz4BlockInput.read_header
    rw [read_write_roundtrip _ hwf _]
    dsimp only
    rw [if_pos (show (0 : Nat) <
      (Lz4BlockHeader.mk .RAW ⟨lvl⟩ c.length c.length
        (cs c)).decompressed_len from hc0)]
    dsimp only
    rw [ensure_vec_length]
    rw [if_pos (by simp only [List.length_take]; omega)]

/-- Reading to end over complete encoded blocks followed by an encoded
block cut strictly inside its payload serves the complete blocks and then
fails with the `UnexpectedEof` I/O error. -/
lemma read_to_end_payload_cut (compress : List Byte → List Byte)
    (decompress : List Byte → Nat → Except Err (List Byte))
    (bound : Nat → Nat) (cs : List Byte → Nat) (lvl : Nat)
    (hlvl : lvl ≤ 15) :
    ∀ (done : List (List Byte)) (fuel : Nat) (st : Lz4BlockInput)
      (acc c : List Byte) (o : Nat),
      done.length < fuel →
      (∀ c' ∈ done, 0 < c'.length ∧ c'.length ≤ 2 ^ (10 + lvl) ∧
        cs c' < 2 ^ 32 ∧ compress c' ≠ [] ∧
        decompress (compress c') c'.length = .ok c') →
      0 < c.length → c.length ≤ 2 ^ (10 + lvl) → cs c < 2 ^ 32 →
      compress c ≠ [] →
      st.read_ptr = st.decompressed_buf.length →
      st.reader = (done.map (encodeBlock compress cs ⟨lvl⟩)).flatten ++
        (encodeBlock compress cs ⟨lvl⟩ c).take o →
      21 ≤ o → o < (encodeBlock compress cs ⟨lvl⟩ c).length →
      Lz4BlockInput.read_to_end decompress bound cs fuel st acc =
        .error .ioUnexpectedEof := by
  intro done
  induction done with
  | nil =>
    intro fuel st acc c o hfuel hprops hc0 hclen hcs32 hne hptr hreader ho1 ho2
    cases fuel with
    | zero => omega
    | succ fuel =>
      unfold Lz4BlockInput.read_to_end
      rw [read_payload_cut compress decompress bound cs lvl c st o
        st.reader.length BIG_REQUEST hlvl hc0 hclen hcs32 hne hptr
        (by rw [hreader]; simp) ho1 ho2]
  | cons c0 done ih =>
    intro fuel st acc c o hfuel hprops hc0 hclen hcs32 hne hptr hreader ho1 ho2
    cases fuel with
    | zero => omega
    | succ fuel =>
      obtain ⟨h0, hlen0, hcs0, hne0, hrt0⟩ := hprops c0 (by simp)
      obtain ⟨st', hread, hr, hp, hs⟩ := read_encoded_block compress decompress
        bound cs lvl c0 ((done.map (encodeBlock compress cs ⟨lvl⟩)).flatten ++
          (encodeBlock compress cs ⟨lvl⟩ c).take o) st st.reader.length hlvl
        h0 hlen0 hcs0 hne0 hrt0 hptr (by rw [hreader]; simp)
      unfold Lz4BlockInput.read_to_end
      rw [hread]
      dsimp only
      rw [if_neg (by
        cases c0
        · simp at h0
        · simp)]
      exact ih fuel st' (acc ++ c0) c o (by simp at hfuel; omega)
        (fun c' hc' => hprops c' (by simp [hc'])) hc0 hclen hcs32 hne hp hr
        ho1 ho2

/-- C7 amended: truncating a valid stream — any concatenation of encoded
blocks, stored or lz4-compressed, read in either termination mode — never
yields `CorruptedStream`: a cut exactly on a block boundary (including
the untruncated end of the stream) decodes the preceding blocks cleanly;
a cut strictly inside a 21-byte block header decodes the preceding blocks
and treats the partial header as a clean end of stream (as the
repository's `read_too_small` test asserts); a cut strictly inside a
block payload decodes the preceding blocks and then fails with the
propagated `UnexpectedEof` I/O error from the short payload read. -/
theorem C7_amended_truncation_behavior
    (compress : List Byte → List Byte)
    (decompress : List Byte → Nat → Except Err (List Byte))
    (bound : Nat → Nat) (cs : List Byte → Nat) (stop : Bool) (lvl : Nat)
    (done : List (List Byte)) (c : List Byte) (o : Nat) (hlvl : lvl ≤ 15)
    (hdone : ∀ c' ∈ done, 0 < c'.length ∧ c'.length ≤ 2 ^ (10 + lvl) ∧
      cs c' < 2 ^ 32 ∧ compress c' ≠ [] ∧
      decompress (compress c') c'.length = .ok c')
    (hc0 : 0 < c.length) (hclen : c.length ≤ 2 ^ (10 + lvl))
    (hcs32 : cs c < 2 ^ 32) (hne : compress c ≠ []) :
    (Lz4BlockInput.read_to_end decompress bound cs (done.length + 1)
        (Lz4BlockInput.with_checksum
          ((done.map (encodeBlock compress cs ⟨lvl⟩)).flatten) stop) [] =
      .ok done.flatten) ∧
    (o < 21 →
      Lz4BlockInput.read_to_end decompress bound cs (done.length + 1)
        (Lz4BlockInput.with_checksum
          ((done.map (encodeBlock compress cs ⟨lvl⟩)).flatten ++
            (encodeBlock compress cs ⟨lvl⟩ c).take o) stop) [] =
      .ok done.flatten) ∧
    (21 ≤ o → o < (encodeBlock compress cs ⟨lvl⟩ c).length →
      Lz4BlockInput.read_to_end decompress bound cs (done.length + 1)
        (Lz4BlockInput.with_checksum
          ((done.map (encodeBlock compress cs ⟨lvl⟩)).flatten ++
            (encodeBlock compress cs ⟨lvl⟩ c).take o) stop) [] =
      .error .ioUnexpectedEof) := by
  refine ⟨?_, ?_, ?_⟩
  · have h := read_to_end_blocks compress decompress bound cs lvl hlvl done
      (done.length + 1) (Lz4BlockInput.with_checksum
        ((done.map (encodeBlock compress cs ⟨lvl⟩)).flatten) stop) [] []
      (by omega) hdone rfl (by simp [Lz4BlockInput.with_checksum]) (by simp)
    simpa using h
  · intro ho
    have h := read_to_end_blocks compress decompress bound cs lvl hlvl done
      (done.length + 1) (Lz4BlockInput.with_checksum
        ((done.map (encodeBlock compress cs ⟨lvl⟩)).flatten ++
          (encodeBlock compress cs ⟨lvl⟩ c).take o) stop) []
      ((encodeBlock compress cs ⟨lvl⟩ c).take o)
      (by omega) hdone rfl rfl
      (by simp only [List.length_take]; omega)
    simpa using h
  · intro ho1 ho2
    exact read_to_end_payload_cut compress decompress bound cs lvl hlvl done
      (done.length + 1) (Lz4BlockInput.with_checksum
        ((done.map (encodeBlock compress cs ⟨lvl⟩)).flatten ++
          (encodeBlock compress cs ⟨lvl⟩ c).take o) stop) [] c o
      (by omega) hdone hc0 hclen hcs32 hne rfl rfl ho1 ho2

/-- Witness for `C7_amended_truncation_behavior` on a concrete two-block
stream with the identity capability: a boundary cut after the first
block, a cut inside the second block's header, and a cut inside the
second block's payload. -/
theorem C7_amended_truncation_behavior_witness :
    (Lz4BlockInput.read_to_end (fun input _ => .ok input)
        (fun n => 16 + n + n / 255) Lz4BlockHeader.default_checksum 2
        (Lz4BlockInput.with_checksum
          (([[46, 46, 46]].map (encodeBlock (fun d => d)
            Lz4BlockHeader.default_checksum ⟨0⟩)).flatten) true) [] =
      .ok [46, 46, 46]) ∧
    (Lz4BlockInput.read_to_end (fun input _ => .ok input)
        (fun n => 16 + n + n / 255) Lz4BlockHeader.default_checksum 2
        (Lz4BlockInput.with_checksum
          (([[46, 46, 46]].map (encodeBlock (fun d => d)
            Lz4BlockHeader.default_checksum ⟨0⟩)).flatten ++
            (encodeBlock (fun d => d) Lz4BlockHeader.default_checksum ⟨0⟩
              [7, 7]).take 5) true) [] = .ok [46, 46, 46]) ∧
    (Lz4BlockInput.read_to_end (fun input _ => .ok input)
        (fun n => 16 + n + n / 255) Lz4BlockHeader.default_checksum 2
        (Lz4BlockInput.with_checksum
          (([[46, 46, 46]].map (encodeBlock (fun d => d)
            Lz4BlockHeader.default_checksum ⟨0⟩)).flatten ++
            (encodeBlock (fun d => d) Lz4BlockHeader.default_checksum ⟨0⟩
              [7, 7]).take 22) true) [] = .error .ioUnexpectedEof) := by
  have hdone : ∀ c' ∈ [[46, 46, 46]], 0 < c'.length ∧
      c'.length ≤ 2 ^ (10 + 0) ∧
      Lz4BlockHeader.default_checksum c' < 2 ^ 32 ∧
      (fun d => d) c' ≠ ([] : List Byte) ∧
      (fun input _ => (.ok input : Except Err (List Byte)))
        ((fun d => d) c') c'.length = .ok c' := by
    intro c' hc'
    simp only [List.mem_singleton] at hc'
    subst hc'
    exact ⟨by decide, by decide, by decide, by decide, rfl⟩
  have h1 := C7_amended_truncation_behavior (fun d => d)
    (fun input _ => .ok input) (fun n => 16 + n + n / 255)
    Lz4BlockHeader.default_checksum true 0 [[46, 46, 46]] [7, 7] 5
    (by norm_num) hdone (by decide) (by decide) (by decide) (by decide)
  have h2 := C7_amended_truncation_behavior (fun d => d)
    (fun input _ => .ok input) (fun n => 16 + n + n / 255)
    Lz4BlockHeader.default_checksum true 0 [[46, 46, 46]] [7, 7] 22
    (by norm_num) hdone (by decide) (by decide) (by decide) (by decide)
  exact ⟨h1.1, h1.2.1 (by norm_num), h2.2.2 (by norm_num) (by decide)⟩

/-- Non-empty chunks are at most as many as their flattened elements. -/
lemma flatten_length_ge (cls : List (List Byte))
    (h : ∀ c ∈ cls, 0 < c.length) : cls.length ≤ cls.flatten.length := by
  induction cls with
  | nil => simp
  | cons c cls ih =>
    simp only [List.flatten_cons, List.length_append, List.length_cons]
    have h1 := h c (by simp)
    have h2 := ih (fun c' hc' => h c' (by simp [hc']))
    omega

lemma default_checksum_lt (buf : List Byte) :
    Lz4BlockHeader.default_checksum buf < 2 ^ 32 := by
  unfold Lz4BlockHeader.default_checksum
  have := Nat.and_le_right (n := xxh32 DEFAULT_SEED buf) (m := 0x0fffffff)
  omega

/-- C1: for every byte sequence `S` and block size `B` with
`64 ≤ B ≤ 2^25`, writing all of `S` through an `Lz4BlockOutput` built with
block size `B` and the default checksum, letting it flush on drop, and
reading the produced bytes to end through a default-constructed
`Lz4BlockInput` yields exactly `S` (for any LZ4 capability whose
`decompress` inverts `compress`, whose compressed output is non-empty on
non-empty input, and whose worst-case `bound` dominates `compress`). -/
theorem C1_round_trip (compress : List Byte → List Byte)
    (decompress : List Byte → Nat → Except Err (List Byte))
    (bound : Nat → Nat)
    (Hrt : ∀ d : List Byte, decompress (compress d) d.length = .ok d)
    (Hne : ∀ d : List Byte, d ≠ [] → compress d ≠ [])
    (Hcb : ∀ d : List Byte, (compress d).length ≤ bound d.length)
    (Hmono : ∀ m n : Nat, m ≤ n → bound m ≤ bound n)
    (S : List Byte) (B : Nat) (hB1 : 64 ≤ B) (hB2 : B ≤ 2 ^ 25) :
    ∃ st0 st1,
      Lz4BlockOutput.with_checksum bound B = .ok st0 ∧
      Lz4BlockOutput.write_all compress Lz4BlockHeader.default_checksum
        (S.length + 1) st0 S = .ok st1 ∧
      Lz4BlockInput.read_to_end decompress bound
        Lz4BlockHeader.default_checksum (S.length + 2)
        (Lz4BlockInput.new (Lz4BlockOutput.dropOut compress
          Lz4BlockHeader.default_checksum st1)) [] = .ok S := by
  obtain ⟨L, hfbs, hL15, hBle, -⟩ := from_block_size_least B
    (by rw [MIN_BLOCK_SIZE_eq]; omega) (by rw [MAX_BLOCK_SIZE_eq]; omega)
  have hmax : (⟨L⟩ : CompressionLevel).get_max_decompressed_buffer_len =
      2 ^ (10 + L) := by
    unfold CompressionLevel.get_max_decompressed_buffer_len
      COMPRESSION_LEVEL_BASE
    rw [Nat.shiftLeft_eq, one_mul, Nat.add_comm]
  have hwc : Lz4BlockOutput.with_checksum bound B = .ok
      { writer := []
        compression_level := ⟨L⟩
        write_ptr := 0
        compressed_buf := List.replicate
          ((⟨L⟩ : CompressionLevel).get_max_compressed_buffer_len bound) 0
        decompressed_buf := List.replicate B 0 } := by
    unfold Lz4BlockOutput.with_checksum
    rw [hfbs]
  obtain ⟨st1, hall, hdrop⟩ := write_pipeline compress
    Lz4BlockHeader.default_checksum (S.length + 1) S
    { writer := []
      compression_level := ⟨L⟩
      write_ptr := 0
      compressed_buf := List.replicate
        ((⟨L⟩ : CompressionLevel).get_max_compressed_buffer_len bound) 0
      decompressed_buf := List.replicate B 0 }
    (by omega)
    (by simp)
    (by simp; omega)
    (by
      intro d hd
      simp only [List.length_replicate] at hd ⊢
      unfold CompressionLevel.get_max_compressed_buffer_len
      rw [hmax]
      exact le_trans (Hcb d) (Hmono _ _ (by omega)))
  refine ⟨_, st1, hwc, hall, ?_⟩
  rw [hdrop]
  simp only [List.take_zero, List.nil_append, List.length_replicate]
  rw [read_to_end_blocks compress decompress bound
    Lz4BlockHeader.default_checksum L hL15 (chunks B S) (S.length + 2)
    _ [] []
    (by
      have h1 := flatten_length_ge (chunks B S)
        (fun c hc => (chunks_bounds B (by omega) S c hc).1)
      rw [chunks_join B (by omega) S] at h1
      omega)
    (by
      intro c hc
      obtain ⟨h1, h2⟩ := chunks_bounds B (by omega) S c hc
      exact ⟨h1, by omega, default_checksum_lt c,
        Hne c (List.ne_nil_of_length_pos h1), Hrt c⟩)
    rfl
    (by simp [Lz4BlockInput.new, Lz4BlockInput.with_checksum])
    (by simp)]
  rw [chunks_join B (by omega) S]
  simp

/-- Witness for `C1_round_trip` with the identity capability on the
reference payload. -/
theorem C1_round_trip_witness :
    ∃ st0 st1,
      Lz4BlockOutput.with_checksum (fun n => 16 + n + n / 255) 64 =
        .ok st0 ∧
      Lz4BlockOutput.write_all (fun d => d) Lz4BlockHeader.default_checksum
        4 st0 [46, 46, 46] = .ok st1 ∧
      Lz4BlockInput.read_to_end (fun input _ => .ok input)
        (fun n => 16 + n + n / 255) Lz4BlockHeader.default_checksum 5
        (Lz4BlockInput.new (Lz4BlockOutput.dropOut (fun d => d)
          Lz4BlockHeader.default_checksum st1)) [] = .ok [46, 46, 46] :=
  C1_round_trip (fun d => d) (fun input _ => .ok input)
    (fun n => 16 + n + n / 255) (fun _ => rfl) (fun _ hd => hd)
    (fun d => by show d.length ≤ 16 + d.length + d.length / 255; omega)
    (fun m n h => by show 16 + m + m / 255 ≤ 16 + n + n / 255; omega)
    [46, 46, 46] 64 (by norm_num) (by norm_num)

end Lz4jb
